import Mathlib

/-!
Verification development for the regfish libdns provider.

The Go source (provider.go and its helper file) is shallowly embedded below.
Strings are Lean `String`s; the character-level work is done on `List Char`
(`String.data`).  Byte-slicing in Go (`s[:len(s)-1]`) is modelled on
characters, which agrees with Go on ASCII record names.  Whitespace and
upper-casing are modelled on the ASCII subset of Go's `unicode` tables,
which covers every string the provider emits.

The external collaborators (the regfish API client, and the libdns
library's typed records) are not part of this repository's source; they
are modelled from the specification where needed, each such definition is
marked `Modelled from the spec:` in its doc comment.
-/

namespace Regfish

/-- ASCII model of `unicode.IsSpace` as used by `strings.Fields`. -/
def isSpaceB (c : Char) : Bool :=
  c == ' ' || c == '\t' || c == '\n' || c == '\u000B' || c == '\u000C' || c == '\r'

/-- ASCII model of `strings.ToUpper` on one character. -/
def toUpperChar (c : Char) : Char :=
  match c with
  | 'a' => 'A' | 'b' => 'B' | 'c' => 'C' | 'd' => 'D' | 'e' => 'E' | 'f' => 'F'
  | 'g' => 'G' | 'h' => 'H' | 'i' => 'I' | 'j' => 'J' | 'k' => 'K' | 'l' => 'L'
  | 'm' => 'M' | 'n' => 'N' | 'o' => 'O' | 'p' => 'P' | 'q' => 'Q' | 'r' => 'R'
  | 's' => 'S' | 't' => 'T' | 'u' => 'U' | 'v' => 'V' | 'w' => 'W' | 'x' => 'X'
  | 'y' => 'Y' | 'z' => 'Z' | other => other

/-- `strings.ToUpper` on a whole string. -/
def toUpperStr (s : String) : String := ⟨s.data.map toUpperChar⟩

/-- Decimal digit to character, as printed by `fmt.Sprintf("%d", ·)`. -/
def digitChar (d : Nat) : Char :=
  match d with
  | 0 => '0' | 1 => '1' | 2 => '2' | 3 => '3' | 4 => '4'
  | 5 => '5' | 6 => '6' | 7 => '7' | 8 => '8' | 9 => '9' | _ => '*'

/-- Hexadecimal digit to character (lower case, as Go prints IPv6 groups). -/
def hexChar (d : Nat) : Char :=
  match d with
  | 0 => '0' | 1 => '1' | 2 => '2' | 3 => '3' | 4 => '4'
  | 5 => '5' | 6 => '6' | 7 => '7' | 8 => '8' | 9 => '9'
  | 10 => 'a' | 11 => 'b' | 12 => 'c' | 13 => 'd' | 14 => 'e' | 15 => 'f' | _ => '*'

/-- Value of a decimal digit character, `none` on a non-digit. -/
def decDigit (c : Char) : Option Nat :=
  if '0' ≤ c ∧ c ≤ '9' then some (c.toNat - 48) else none

/-- Value of a hexadecimal digit character (either case), `none`
otherwise. -/
def hexDigit (c : Char) : Option Nat :=
  if '0' ≤ c ∧ c ≤ '9' then some (c.toNat - 48)
  else if 'a' ≤ c ∧ c ≤ 'f' then some (c.toNat - 87)
  else if 'A' ≤ c ∧ c ≤ 'F' then some (c.toNat - 55)
  else none

/-- Big-endian positional rendering in base `b` with digit table `dc`;
`fuel` bounds the recursion depth (any `fuel` with `n < b ^ fuel` is exact). -/
def renderGo (b : Nat) (dc : Nat → Char) : Nat → Nat → List Char
  | 0, _ => []
  | fuel + 1, n => if n < b then [dc n] else renderGo b dc fuel (n / b) ++ [dc (n % b)]

/-- Decimal rendering of a natural number (`fmt.Sprintf("%d", n)`),
big-endian character list. -/
def renderNatL (n : Nat) : List Char := renderGo 10 digitChar (n + 1) n

/-- Hexadecimal rendering of one IPv6 group, big-endian character list. -/
def renderHexL (n : Nat) : List Char := renderGo 16 hexChar (n + 1) n

/-- One step of the accumulating digit parse. -/
def parseStep (pd : Char → Option Nat) (b : Nat) (acc : Option Nat) (c : Char) : Option Nat :=
  acc.bind fun a => (pd c).map fun d => a * b + d

/-- Accumulating digit parse: processes a big-endian digit string with
digit-value function `pd` in base `b`; `none` on any non-digit. -/
def parseCore (pd : Char → Option Nat) (b : Nat) (l : List Char) : Option Nat :=
  l.foldl (parseStep pd b) (some 0)

/-- Model of `strconv.ParseUint(s, 10, bits)` with `bound = 2^bits`:
nonempty all-decimal string whose value is below `bound`
(Go reports a range error, hence a non-nil error, at or above it). -/
def parseUintB (bound : Nat) (l : List Char) : Option Nat :=
  if l.isEmpty then none
  else (parseCore decDigit 10 l).bind fun n => if n < bound then some n else none

/-- Hexadecimal parse of one IPv6 group (at most `0xffff`). -/
def parseHexB (l : List Char) : Option Nat :=
  if l.isEmpty then none
  else (parseCore hexDigit 16 l).bind fun n => if n < 65536 then some n else none

/-- Does the character occur in the list? -/
def hasChar (c : Char) (l : List Char) : Bool := l.any (· == c)

/-- Worker for `fieldsL`: `cur` is the current word, reversed. -/
def fieldsGo (cur : List Char) : List Char → List (List Char)
  | [] => if cur.isEmpty then [] else [cur.reverse]
  | c :: cs =>
    if isSpaceB c then
      if cur.isEmpty then fieldsGo [] cs else cur.reverse :: fieldsGo [] cs
    else fieldsGo (c :: cur) cs

/-- `strings.Fields`: maximal runs of non-whitespace characters. -/
def fieldsL (l : List Char) : List (List Char) := fieldsGo [] l

/-- Split at the first occurrence of `sep`: `some (before, after)`,
or `none` when `sep` does not occur. -/
def splitFirst (sep : Char) : List Char → Option (List Char × List Char)
  | [] => none
  | c :: cs =>
    if c = sep then some ([], cs)
    else (splitFirst sep cs).map fun p => (c :: p.1, p.2)

/-- `strings.SplitN(s, " ", 3)`: at most three pieces, the third keeps
the remainder verbatim. -/
def splitN3 (l : List Char) : List (List Char) :=
  match splitFirst ' ' l with
  | none => [l]
  | some (a, r) =>
    match splitFirst ' ' r with
    | none => [a, r]
    | some (b, r2) => [a, b, r2]

/-- Worker for `splitAll`: `cur` is the current piece, reversed. -/
def splitAllGo (sep : Char) (cur : List Char) : List Char → List (List Char)
  | [] => [cur.reverse]
  | c :: cs =>
    if c = sep then cur.reverse :: splitAllGo sep [] cs
    else splitAllGo sep (c :: cur) cs

/-- Unbounded split on a separator character (`strings.Split`). -/
def splitAll (sep : Char) (l : List Char) : List (List Char) :=
  splitAllGo sep [] l

/-! ### IP addresses

`Modelled from the spec:` the decode table (§4.2) requires "valid IP
literal" for A/AAAA, and the data model (§3) stores a "parsed IP (v4 or
v6)".  The Go code delegates to `net/netip`, which is outside this
repository; it is modelled here with dotted-quad IPv4 literals and
8-group colon-separated hexadecimal IPv6 literals (without `::`
compression, which the renderer below never emits). -/

/-- A parsed IP address: four decimal octets, or eight 16-bit groups. -/
inductive Ip where
  | v4 (a b c d : Nat)
  | v6 (a b c d e f g h : Nat)
  deriving DecidableEq

/-- Structural validity of the stored numbers. -/
def Ip.wf : Ip → Prop
  | .v4 a b c d => a < 256 ∧ b < 256 ∧ c < 256 ∧ d < 256
  | .v6 a b c d e f g h =>
      a < 65536 ∧ b < 65536 ∧ c < 65536 ∧ d < 65536 ∧
      e < 65536 ∧ f < 65536 ∧ g < 65536 ∧ h < 65536

instance (ip : Ip) : Decidable ip.wf := by
  cases ip <;> simp [Ip.wf] <;> infer_instance

/-- `Modelled from the spec:` `netip.Addr.String` — canonical text of an IP. -/
def ipRenderL : Ip → List Char
  | .v4 a b c d =>
      renderNatL a ++ '.' :: renderNatL b ++ '.' :: renderNatL c ++ '.' :: renderNatL d
  | .v6 a b c d e f g h =>
      renderHexL a ++ ':' :: renderHexL b ++ ':' :: renderHexL c ++ ':' :: renderHexL d ++
      ':' :: renderHexL e ++ ':' :: renderHexL f ++ ':' :: renderHexL g ++ ':' :: renderHexL h

/-- `Modelled from the spec:` `netip.ParseAddr` — accepts exactly the
literals of the model above ("valid IP literal"; anything else is the
fallback trigger "unparsable IP"). -/
def parseAddrL (l : List Char) : Option Ip :=
  if hasChar ':' l then
    match (splitAll ':' l).map parseHexB with
    | [some a, some b, some c, some d, some e, some f, some g, some h] =>
        some (.v6 a b c d e f g h)
    | _ => none
  else
    match (splitAll '.' l).map (parseUintB 256) with
    | [some a, some b, some c, some d] => some (.v4 a b c d)
    | _ => none

/-- Is the address IPv4 (selects record type `"A"` over `"AAAA"`)? -/
def Ip.is4 : Ip → Bool
  | .v4 _ _ _ _ => true
  | .v6 _ _ _ _ _ _ _ _ => false

/-! ### The data model -/

/-- The regfish API record (`rfns.Record` of the external client):
`name` is fully qualified with a trailing dot, `Data` is the flat
type-specific string, `TTL` integer seconds, `Priority` optional.
The Go field `Type` is called `rtype` here (`Type` is reserved in Lean). -/
structure RfnsRecord where
  ID : Nat
  Name : String
  rtype : String
  Data : String
  TTL : Int
  Priority : Option Int := none
  deriving DecidableEq

/-- The wire-format view `libdns.RR` (name, type, data, ttl).  TTL is the
Go `time.Duration` in nanoseconds. -/
structure RRData where
  Name : String
  rtype : String
  Data : String
  TTL : Int
  deriving DecidableEq

/-- The libdns typed records used by the provider.  TTLs are durations in
nanoseconds (Go `time.Duration`).  `svcb` stands for
`libdns.ServiceBinding`; `rr` is the raw fallback `libdns.RR`. -/
inductive TypedRecord where
  | address (name : String) (ttl : Int) (ip : Ip)
  | mx (name : String) (ttl : Int) (preference : Nat) (target : String)
  | txt (name : String) (ttl : Int) (text : String)
  | cname (name : String) (ttl : Int) (target : String)
  | ns (name : String) (ttl : Int) (target : String)
  | srv (name : String) (ttl : Int) (priority weight port : Nat) (target : String)
  | caa (name : String) (ttl : Int) (flags : Nat) (tag : String) (value : String)
  | svcb (name : String) (ttl : Int) (priority : Nat) (target : String)
  | rr (name : String) (rtype : String) (data : String) (ttl : Int)
  deriving DecidableEq

/-! ### Name normalizer

`fqdn` (helper file): trims all trailing dots from name and zone, appends
`"." + zone` when the trimmed name does not end with the trimmed zone,
and appends a final dot.  The trailing-dot manipulation is modelled on
the reversed character list, where it becomes leading-element work. -/

/-- Trailing-dot trim on a reversed string (`strings.TrimRight(s, ".")`). -/
def revTrim (r : List Char) : List Char := r.dropWhile (· == '.')

/-- Is the first list a prefix of the second?  (`strings.HasSuffix` works
on the reversed lists.) -/
def isPre : List Char → List Char → Bool
  | [], _ => true
  | _ :: _, [] => false
  | a :: as, b :: bs => a == b && isPre as bs

/-- `fqdn` on reversed character lists (result also reversed): trim both,
test the zone suffix, append `"." + zone` if missing, add the final dot. -/
def fqdnR (nR zR : List Char) : List Char :=
  if isPre (revTrim zR) (revTrim nR) then '.' :: revTrim nR
  else '.' :: (revTrim zR ++ '.' :: revTrim nR)

/-- The provider's `fqdn(name, zone)` (helper file, lines 20–27). -/
def fqdn (name zone : String) : String :=
  ⟨(fqdnR name.data.reverse zone.data.reverse).reverse⟩

/-- `strings.TrimRight(s, ".")` on strings. -/
def trimDotsStr (s : String) : String := ⟨(revTrim s.data.reverse).reverse⟩

/-- `strings.HasSuffix(s, suffix)`. -/
def hasSuffixB (s suffix : String) : Bool :=
  isPre suffix.data.reverse s.data.reverse

/-- `Modelled from the spec:` `libdns.RelativeName(fqdn, zone)` (the libdns
library is not part of this repository) — §4.2: the decoded name is
"expressed relative to `zone`": trailing dots go, the zone suffix (with
its separating dot) goes.  Reversed-list form. -/
def relativeNameR (fR zR : List Char) : List Char :=
  if isPre (revTrim zR) (revTrim fR) then
    ((revTrim fR).drop (revTrim zR).length).dropWhile (· == '.')
  else (revTrim fR).dropWhile (· == '.')

/-- `libdns.RelativeName` on strings. -/
def relativeName (f zone : String) : String :=
  ⟨(relativeNameR f.data.reverse zone.data.reverse).reverse⟩

/-- Go string slicing `s[:len(s)-1]` (on a nonempty string). -/
def dropLastStr (s : String) : String := ⟨s.data.dropLast⟩

/-! ### Record converter -/

/-- Body of `convertToLibdnsRecord` (provider.go, lines 49–186), after the
name slice `rec.Name[:len(rec.Name)-1]` has been taken.  Dispatches on
the upper-cased type; malformed type-specific data falls back to the raw
`libdns.RR` record carrying the original type and data strings. -/
def convertBody (rec : RfnsRecord) (zone : String) : TypedRecord :=
  let relName := relativeName (dropLastStr rec.Name) zone
  let ttl : Int := rec.TTL * 1000000000
  let u := toUpperStr rec.rtype
  if u = "A" ∨ u = "AAAA" then
    match parseAddrL rec.Data.data with
    | none => .rr relName rec.rtype rec.Data ttl
    | some ip => .address relName ttl ip
  else if u = "MX" then
    match fieldsL rec.Data.data with
    | [p0, p1] =>
      match parseUintB 65536 p0 with
      | none => .rr relName rec.rtype rec.Data ttl
      | some pref => .mx relName ttl pref ⟨p1⟩
    | _ => .rr relName rec.rtype rec.Data ttl
  else if u = "TXT" then .txt relName ttl rec.Data
  else if u = "CNAME" then .cname relName ttl rec.Data
  else if u = "NS" then .ns relName ttl rec.Data
  else if u = "SRV" then
    match fieldsL rec.Data.data with
    | [p0, p1, p2, p3] =>
      match parseUintB 65536 p0, parseUintB 65536 p1, parseUintB 65536 p2 with
      | some pr, some w, some pt => .srv relName ttl pr w pt ⟨p3⟩
      | _, _, _ => .rr relName rec.rtype rec.Data ttl
    | _ => .rr relName rec.rtype rec.Data ttl
  else if u = "CAA" then
    match splitN3 rec.Data.data with
    | [p0, p1, p2] =>
      match parseUintB 256 p0 with
      | none => .rr relName rec.rtype rec.Data ttl
      | some flags => .caa relName ttl flags ⟨p1⟩ ⟨p2⟩
    | _ => .rr relName rec.rtype rec.Data ttl
  else .rr relName rec.rtype rec.Data ttl

/-- `convertToLibdnsRecord` (provider.go).  The first statement slices
`rec.Name[:len(rec.Name)-1]`, which panics when `rec.Name` is empty;
the panic is modelled as `none`. -/
def convertToLibdnsRecord (rec : RfnsRecord) (zone : String) : Option TypedRecord :=
  if rec.Name.data.isEmpty then none else some (convertBody rec zone)

/-- `Modelled from the spec:` the libdns `Record.RR()` methods (the libdns
library is not part of this repository).  Each typed record renders its
wire view per the data grammars of §4.2 / the data model of §3: MX
`"<preference> <target>"`, SRV `"<priority> <weight> <port> <target>"`,
CAA `"<flags> <tag> <value>"`, addresses render the IP literal and pick
`A`/`AAAA` by the address family; TXT/CNAME/NS carry their string
verbatim.  `svcb` is rendered minimally (priority and target) — it never
takes part in decoding. -/
def TypedRecord.RR : TypedRecord → RRData
  | .address n t ip => ⟨n, if ip.is4 then "A" else "AAAA", ⟨ipRenderL ip⟩, t⟩
  | .mx n t pref tgt => ⟨n, "MX", ⟨renderNatL pref ++ ' ' :: tgt.data⟩, t⟩
  | .txt n t text => ⟨n, "TXT", text, t⟩
  | .cname n t tgt => ⟨n, "CNAME", tgt, t⟩
  | .ns n t tgt => ⟨n, "NS", tgt, t⟩
  | .srv n t pr w pt tgt =>
      ⟨n, "SRV",
        ⟨renderNatL pr ++ ' ' :: renderNatL w ++ ' ' :: renderNatL pt ++ ' ' :: tgt.data⟩, t⟩
  | .caa n t fl tag val =>
      ⟨n, "CAA", ⟨renderNatL fl ++ ' ' :: tag.data ++ ' ' :: val.data⟩, t⟩
  | .svcb n t pr tgt => ⟨n, "HTTPS", ⟨renderNatL pr ++ ' ' :: tgt.data⟩, t⟩
  | .rr n ty d t => ⟨n, ty, d, t⟩

/-- `int(rr.TTL.Seconds())`: a nanosecond duration to whole seconds.  On
whole-second durations in range (the only durations the provider itself
produces) the float conversion is exact and every rounding mode agrees. -/
def durToSecs (d : Int) : Int := d / 1000000000

/-- The `switch record.(type)` of `convertFromLibdnsRecord` (provider.go,
lines 199–207): priority is set for `libdns.MX` (its preference) and
`libdns.SRV` (its priority); no other case exists. -/
def convertPriority : TypedRecord → Option Int
  | .mx _ _ pref _ => some pref
  | .srv _ _ pr _ _ _ => some pr
  | _ => none

/-- `convertFromLibdnsRecord` (provider.go, lines 189–210). -/
def convertFromLibdnsRecord (record : TypedRecord) (zone : String) : RfnsRecord :=
  let rr := record.RR
  { ID := 0, Name := fqdn rr.Name zone, rtype := rr.rtype, Data := rr.Data,
    TTL := durToSecs rr.TTL, Priority := convertPriority record }

/-- The `switch record.(type)` inside `upsertRecord` (helper file, lines
108–116).  In the Go source `case libdns.SRV:` has an empty body and Go
switch cases do not fall through, so only `libdns.ServiceBinding` and
`libdns.MX` set a priority there. -/
def upsertPriority : TypedRecord → Option Int
  | .svcb _ _ pr _ => some pr
  | .mx _ _ pref _ => some pref
  | _ => none

/-- The `update_rec` built by `upsertRecord` (helper file, lines 100–116). -/
def upsertEncode (record : TypedRecord) (zone : String) : RfnsRecord :=
  let rr := record.RR
  { ID := 0, Name := fqdn rr.Name zone, rtype := rr.rtype, Data := rr.Data,
    TTL := durToSecs rr.TTL, Priority := upsertPriority record }

/-! ### Matchers -/

/-- The match test of `upsertRecord`'s scan (helper file, line 122):
normalized name and type. -/
def upsertMatch (zone : String) (rr : RRData) (rec : RfnsRecord) : Bool :=
  fqdn rec.Name zone == fqdn rr.Name zone && rec.rtype == rr.rtype

/-- The match test of `DeleteRecords`' scan (provider.go, line 284):
normalized name, type and data. -/
def deleteMatch (zone : String) (rr : RRData) (rec : RfnsRecord) : Bool :=
  fqdn rec.Name zone == fqdn rr.Name zone && rec.rtype == rr.rtype && rec.Data == rr.Data

/-! ### Errors, provider-client calls, and the operations

The regfish API client is an external collaborator (§6); it is modelled
as a record of response functions, universally quantified in the
theorems.  Every `fmt.Errorf` wrapping site of the source gets its own
error constructor, and each operation additionally returns the sequence
of provider-client calls it issued, in order. -/

/-- Errors: one constructor per `fmt.Errorf` site, plus an opaque
client-side error. -/
inductive Err where
  | transport (msg : String)
  | fetchZone (zone : String) (e : Err)
  | wrapCreate (name : String) (e : Err)
  | wrapUpdate (name : String) (e : Err)
  | notFound (name rtype data : String)
  | wrapDelete (id : Nat) (e : Err)
  deriving DecidableEq

/-- One provider-client invocation. -/
inductive Call where
  | fetch (zone : String)
  | create (rec : RfnsRecord)
  | update (id : Nat) (rec : RfnsRecord)
  | delete (id : Nat)
  deriving DecidableEq

/-- The provider client's responses (contract of §6).  A `Client` value
fixes what every possible call would return. -/
structure Client where
  getRecordsByDomain : String → Except Err (List RfnsRecord)
  createRecord : RfnsRecord → Except Err RfnsRecord
  updateRecordById : Nat → RfnsRecord → Except Err RfnsRecord
  deleteRecord : Nat → Except Err Unit

/-- `upsertRecord` (helper file, lines 91–130): fetch the zone, build
`update_rec`, scan for the first name+type match; update it by id when
found, create otherwise. -/
def upsertRecord (c : Client) (record : TypedRecord) (zone : String) :
    Except Err RfnsRecord × List Call :=
  match c.getRecordsByDomain zone with
  | .error e => (.error e, [.fetch zone])
  | .ok records =>
    let rr := record.RR
    let update_rec := upsertEncode record zone
    match records.find? (fun rec => upsertMatch zone rr rec) with
    | some rec =>
        (c.updateRecordById rec.ID update_rec, [.fetch zone, .update rec.ID update_rec])
    | none => (c.createRecord update_rec, [.fetch zone, .create update_rec])

/-- Decode a fetched record list in order; `none` as soon as one decode
panics.  (`convertToLibdnsRecord` never returns a nil interface, so the
source's `record != nil` guard never filters.) -/
def decodeAll (zone : String) : List RfnsRecord → Option (List TypedRecord)
  | [] => some []
  | r :: rs =>
    match convertToLibdnsRecord r zone with
    | none => none
    | some t => (decodeAll zone rs).map fun l => t :: l

/-- `GetRecords` (provider.go, lines 27–46): fetch and decode every
record.  The outer `Option` is `none` when some decode panics. -/
def getRecords (c : Client) (zone : String) :
    Option (Except Err (List TypedRecord)) × List Call :=
  match c.getRecordsByDomain zone with
  | .error e => (some (.error (.fetchZone zone e)), [.fetch zone])
  | .ok records =>
    match decodeAll zone records with
    | none => (none, [.fetch zone])
    | some l => (some (.ok l), [.fetch zone])

/-- Loop body of `AppendRecords` (provider.go, lines 212–234): encode and
create each record in turn, decoding each response; the first failure
returns only that error, wrapped with the record's relative name. -/
def appendLoop (c : Client) (zone : String) :
    List TypedRecord → Option (Except Err (List TypedRecord)) × List Call
  | [] => (some (.ok []), [])
  | r :: rs =>
    let rec_ := convertFromLibdnsRecord r zone
    match c.createRecord rec_ with
    | .error e => (some (.error (.wrapCreate r.RR.Name e)), [.create rec_])
    | .ok created =>
      match convertToLibdnsRecord created zone with
      | none => (none, [.create rec_])
      | some cr =>
        let rest := appendLoop c zone rs
        ((rest.1.map fun res => res.map fun l => cr :: l), .create rec_ :: rest.2)

/-- `AppendRecords` (provider.go, lines 212–234). -/
def appendRecords (c : Client) (zone : String) (records : List TypedRecord) :
    Option (Except Err (List TypedRecord)) × List Call :=
  appendLoop c zone records

/-- Loop body of `SetRecords` (provider.go, lines 238–261): upsert each
record in turn, decoding each response; the first failure returns only
that error, wrapped with the record's relative name. -/
def setLoop (c : Client) (zone : String) :
    List TypedRecord → Option (Except Err (List TypedRecord)) × List Call
  | [] => (some (.ok []), [])
  | r :: rs =>
    let up := upsertRecord c r zone
    match up.1 with
    | .error e => (some (.error (.wrapUpdate r.RR.Name e)), up.2)
    | .ok updated =>
      match convertToLibdnsRecord updated zone with
      | none => (none, up.2)
      | some ur =>
        let rest := setLoop c zone rs
        ((rest.1.map fun res => res.map fun l => ur :: l), up.2 ++ rest.2)

/-- `SetRecords` (provider.go, lines 238–261). -/
def setRecords (c : Client) (zone : String) (records : List TypedRecord) :
    Option (Except Err (List TypedRecord)) × List Call :=
  setLoop c zone records

/-- Loop body of `DeleteRecords` (provider.go, lines 277–298) over the
pre-fetched zone records `all`: find the first strict match, reject id 0
as "not found", delete by id, and collect the original input record. -/
def deleteLoop (c : Client) (zone : String) (all : List RfnsRecord) :
    List TypedRecord → Except Err (List TypedRecord) × List Call
  | [] => (.ok [], [])
  | r :: rs =>
    let rr := r.RR
    let rrid := ((all.find? (fun rec => deleteMatch zone rr rec)).map RfnsRecord.ID).getD 0
    if rrid = 0 then
      (.error (.notFound rr.Name rr.rtype rr.Data), [])
    else
      match c.deleteRecord rrid with
      | .error e => (.error (.wrapDelete rrid e), [.delete rrid])
      | .ok _ =>
        let rest := deleteLoop c zone all rs
        ((rest.1.map fun l => r :: l), .delete rrid :: rest.2)

/-- `DeleteRecords` (provider.go, lines 264–301): fetch once, then run
the loop. -/
def deleteRecords (c : Client) (zone : String) (records : List TypedRecord) :
    Except Err (List TypedRecord) × List Call :=
  match c.getRecordsByDomain zone with
  | .error e => (.error (.fetchZone zone e), [.fetch zone])
  | .ok all =>
    let rest := deleteLoop c zone all records
    (rest.1, .fetch zone :: rest.2)

/-! ### Claim-side predicates -/

/-- Well-formedness of a relative name for a zone: no trailing dot, and
(unless the trimmed zone is empty) the name does not already end with the
trimmed zone — exactly the names `fqdn`/`RelativeName` round-trip. -/
def wfName (name zone : String) : Prop :=
  revTrim name.data.reverse = name.data.reverse ∧
  (revTrim zone.data.reverse = [] ∨ isPre (revTrim zone.data.reverse) name.data.reverse = false)

instance (name zone : String) : Decidable (wfName name zone) := by
  unfold wfName; infer_instance

/-- No whitespace characters in the string. -/
def noSpace (s : String) : Prop := ∀ c ∈ s.data, isSpaceB c = false

instance (s : String) : Decidable (noSpace s) :=
  List.decidableBAll _ s.data

/-- A whole number of seconds (`time.Duration` has nanosecond units; the
data model gives TTLs seconds granularity). -/
def wfTTL (t : Int) : Prop := t % 1000000000 = 0

instance (t : Int) : Decidable (wfTTL t) := by
  unfold wfTTL; infer_instance

/-- The seven variants named by the round-trip claim. -/
def claimVariant : TypedRecord → Prop
  | .svcb _ _ _ _ => False
  | .rr _ _ _ _ => False
  | _ => True

instance (x : TypedRecord) : Decidable (claimVariant x) := by
  cases x <;> simp [claimVariant] <;> infer_instance

/-- Well-formedness of a typed record against the decode table: the name
round-trips, the TTL is whole seconds, numeric fields fit their width,
and targets/tags contain no whitespace (MX/SRV targets also nonempty). -/
def wfTyped : TypedRecord → String → Prop
  | .address n t ip, zone => wfName n zone ∧ wfTTL t ∧ ip.wf
  | .mx n t pref tgt, zone =>
      wfName n zone ∧ wfTTL t ∧ pref < 65536 ∧ tgt ≠ "" ∧ noSpace tgt
  | .txt n t _, zone => wfName n zone ∧ wfTTL t
  | .cname n t _, zone => wfName n zone ∧ wfTTL t
  | .ns n t _, zone => wfName n zone ∧ wfTTL t
  | .srv n t pr w pt tgt, zone =>
      wfName n zone ∧ wfTTL t ∧ pr < 65536 ∧ w < 65536 ∧ pt < 65536 ∧ tgt ≠ "" ∧ noSpace tgt
  | .caa n t fl tag _, zone => wfName n zone ∧ wfTTL t ∧ fl < 256 ∧ noSpace tag
  | .svcb _ _ _ _, _ => False
  | .rr _ _ _ _, _ => False

instance (x : TypedRecord) (zone : String) : Decidable (wfTyped x zone) := by
  cases x <;> simp [wfTyped] <;> infer_instance

/-- The claim's malformedness condition, read off the fallback triggers
of the decode table (the branch conditions of `convertBody`):
wrong field count or failed numeric parse for MX/SRV/CAA, unparsable IP
for A/AAAA. -/
def malformedData (ty data : String) : Bool :=
  let u := toUpperStr ty
  if u = "A" ∨ u = "AAAA" then (parseAddrL data.data).isNone
  else if u = "MX" then
    match fieldsL data.data with
    | [p0, _] => (parseUintB 65536 p0).isNone
    | _ => true
  else if u = "SRV" then
    match fieldsL data.data with
    | [p0, p1, p2, _] =>
        (parseUintB 65536 p0).isNone || (parseUintB 65536 p1).isNone ||
        (parseUintB 65536 p2).isNone
    | _ => true
  else if u = "CAA" then
    match splitN3 data.data with
    | [p0, _, _] => (parseUintB 256 p0).isNone
    | _ => true
  else false

/-- Formalizes the claim phrase "wrapped with that record's identity
(name)": does the error name the given record name at its top wrap? -/
def errorWrappedWithName (e : Err) (name : String) : Bool :=
  match e with
  | .wrapCreate m _ => m == name
  | .wrapUpdate m _ => m == name
  | .notFound m _ _ => m == name
  | _ => false

/-- `Modelled from the spec:` matcher rule 1 of §4.3 — "if `desired.id`
is known and equals a candidate's `id`, match".  The current source has
no such rule; this definition exists to compare the spec's words with
the source matcher. -/
def specMatcherRule1 (desiredId : Nat) (candidate : RfnsRecord) : Bool :=
  candidate.ID == desiredId

/-! ### Concrete fixtures used by witnesses and counterexamples -/

/-- A persisted A record of the fixture zone. -/
def recA : RfnsRecord := ⟨7, "www.example.com.", "A", "1.2.3.4", 300, none⟩

/-- A persisted MX record of the fixture zone. -/
def recB : RfnsRecord := ⟨4, "mail.example.com.", "MX", "10 mx.example.com.", 300, some 10⟩

/-- A second A record at the same name and type as `recA` (a duplicate
for the tie-break claim). -/
def recDup : RfnsRecord := ⟨9, "www.example.com.", "A", "5.6.7.8", 60, none⟩

/-- A fixture client: the zone holds the three records above; create and
update echo their argument with an id; delete succeeds except on id 7. -/
def clientW : Client where
  getRecordsByDomain := fun _ => .ok [recA, recB, recDup]
  createRecord := fun r => .ok { r with ID := 11 }
  updateRecordById := fun i r => .ok { r with ID := i }
  deleteRecord := fun i => if i = 7 then .error (.transport "boom") else .ok ()

/-- Typed fixture records (TTLs in nanoseconds). -/
def tA : TypedRecord := .address "www" (300 * 1000000000) (.v4 1 2 3 4)

/-- MX typed fixture. -/
def tMX : TypedRecord := .mx "mail" (300 * 1000000000) 10 "mx.example.com."

/-- SRV typed fixture. -/
def tSRV : TypedRecord := .srv "sip" (60 * 1000000000) 10 20 5060 "sipserver.example.com."

/-- ServiceBinding typed fixture. -/
def tSVCB : TypedRecord := .svcb "svc" (60 * 1000000000) 7 "target.example.com."

/-- A provider record with malformed MX data (one field, non-numeric). -/
def recBad : RfnsRecord := ⟨3, "bad.example.com.", "MX", "banana", 300, none⟩

/-- A provider record with an empty name (violates the fetched-record
invariant). -/
def recNoName : RfnsRecord := ⟨1, "", "MX", "x", 60, none⟩

/-- TXT typed fixture. -/
def tTXT : TypedRecord := .txt "note" (60 * 1000000000) "hello"

/-- A fixture client with one failure per operation: create fails on TXT
records, update fails on id 4, delete fails on id 7. -/
def clientF : Client where
  getRecordsByDomain := fun _ => .ok [recA, recB, recDup]
  createRecord := fun r => if r.rtype == "TXT" then .error (.transport "cerr")
    else .ok { r with ID := 11 }
  updateRecordById := fun i r => if i = 4 then .error (.transport "uerr")
    else .ok { r with ID := i }
  deleteRecord := fun i => if i = 7 then .error (.transport "derr") else .ok ()

/-- A duplicate of `recA` with identical data (only id and TTL differ). -/
def recDup2 : RfnsRecord := ⟨13, "www.example.com.", "A", "1.2.3.4", 900, none⟩

/-- A client with duplicate candidates and an always-succeeding delete. -/
def clientDup : Client where
  getRecordsByDomain := fun _ => .ok [recA, recDup2]
  createRecord := fun r => .ok { r with ID := 21 }
  updateRecordById := fun i r => .ok { r with ID := i }
  deleteRecord := fun _ => .ok ()

/-- A candidate that agrees with nothing but a provider id. -/
def recOther : RfnsRecord := ⟨5, "other.example.com.", "A", "9.9.9.9", 60, none⟩

/-- A client whose zone holds only `recOther`. -/
def clientC8 : Client where
  getRecordsByDomain := fun _ => .ok [recOther]
  createRecord := fun r => .ok { r with ID := 12 }
  updateRecordById := fun i r => .ok { r with ID := i }
  deleteRecord := fun _ => .ok ()

/-! ### Lemmas: rendering and parsing numbers -/

theorem foldl_parseStep_append (pd : Char → Option Nat) (b : Nat) (acc : Option Nat)
    (l1 l2 : List Char) :
    (l1 ++ l2).foldl (parseStep pd b) acc = l2.foldl (parseStep pd b) (l1.foldl (parseStep pd b) acc) :=
  List.foldl_append ..

theorem renderGo_ne_nil (b : Nat) (dc : Nat → Char) (fuel n : Nat) (h : 0 < fuel) :
    renderGo b dc fuel n ≠ [] := by
  cases fuel with
  | zero => omega
  | succ f =>
    by_cases hn : n < b
    · simp [renderGo, hn]
    · simp [renderGo, hn]

theorem foldl_parseStep_renderGo (pd : Char → Option Nat) (b : Nat) (dc : Nat → Char)
    (hb : 2 ≤ b) (hpd : ∀ d, d < b → pd (dc d) = some d) :
    ∀ (fuel n a : Nat), 0 < fuel → n < b ^ fuel →
      (renderGo b dc fuel n).foldl (parseStep pd b) (some a) =
        some (a * b ^ (renderGo b dc fuel n).length + n) := by
  intro fuel
  induction fuel with
  | zero => intro n a h; omega
  | succ f ih =>
    intro n a _ hlt
    by_cases hn : n < b
    · simp [renderGo, if_pos hn, parseStep, hpd n hn, pow_one]
    · have hf : 0 < f := by
        rcases Nat.eq_zero_or_pos f with hf0 | hf0
        · subst hf0; simp [pow_one] at hlt; omega
        · exact hf0
      have hdiv : n / b < b ^ f := by
        have hb0 : 0 < b := by omega
        rw [Nat.div_lt_iff_lt_mul hb0]
        calc n < b ^ (f + 1) := hlt
        _ = b ^ f * b := by rw [pow_succ]
      simp only [renderGo, if_neg hn]
      rw [foldl_parseStep_append, ih (n / b) a hf hdiv]
      have hmod : n % b < b := Nat.mod_lt _ (by omega)
      have hstep : parseStep pd b
          (some (a * b ^ (renderGo b dc f (n / b)).length + n / b)) (dc (n % b)) =
          some ((a * b ^ (renderGo b dc f (n / b)).length + n / b) * b + n % b) := by
        simp [parseStep, hpd _ hmod]
      simp only [List.foldl_cons, List.foldl_nil, hstep, List.length_append,
        List.length_cons, List.length_nil]
      congr 1
      calc (a * b ^ (renderGo b dc f (n / b)).length + n / b) * b + n % b
          = a * (b ^ (renderGo b dc f (n / b)).length * b) + (n / b * b + n % b) := by ring
        _ = a * b ^ ((renderGo b dc f (n / b)).length + (0 + 1)) + n := by
            rw [← pow_succ, Nat.div_add_mod']

theorem parseCore_renderGo (pd : Char → Option Nat) (b : Nat) (dc : Nat → Char)
    (hb : 2 ≤ b) (hpd : ∀ d, d < b → pd (dc d) = some d) (n : Nat) :
    parseCore pd b (renderGo b dc (n + 1) n) = some n := by
  have hlt : n < b ^ (n + 1) := by
    calc n < 2 ^ n := Nat.lt_two_pow n
    _ ≤ 2 ^ (n + 1) := Nat.pow_le_pow_right (by omega) (by omega)
    _ ≤ b ^ (n + 1) := Nat.pow_le_pow_left hb _
  have := foldl_parseStep_renderGo pd b dc hb hpd (n + 1) n 0 (by omega) hlt
  simpa [parseCore] using this

theorem decDigit_digitChar (d : Nat) (h : d < 10) : decDigit (digitChar d) = some d := by
  interval_cases d <;> rfl

theorem hexDigit_hexChar (d : Nat) (h : d < 16) : hexDigit (hexChar d) = some d := by
  interval_cases d <;> rfl

theorem isEmpty_false_of_ne_nil {l : List Char} (h : l ≠ []) : l.isEmpty = false := by
  cases l with
  | nil => exact absurd rfl h
  | cons a t => rfl

theorem parseUintB_renderNatL (bound n : Nat) (h : n < bound) :
    parseUintB bound (renderNatL n) = some n := by
  have hne := renderGo_ne_nil 10 digitChar (n + 1) n (by omega)
  have hp := parseCore_renderGo decDigit 10 digitChar (by omega) decDigit_digitChar n
  simp only [parseUintB, renderNatL, isEmpty_false_of_ne_nil hne]
  simp only [renderNatL] at hp
  simp [hp, h]

theorem parseHexB_renderHexL (n : Nat) (h : n < 65536) :
    parseHexB (renderHexL n) = some n := by
  have hne := renderGo_ne_nil 16 hexChar (n + 1) n (by omega)
  have hp := parseCore_renderGo hexDigit 16 hexChar (by omega) hexDigit_hexChar n
  simp only [parseHexB, renderHexL, isEmpty_false_of_ne_nil hne]
  simp only [renderHexL] at hp
  simp [hp, h]

/-- Every character emitted by `renderGo` is a digit of the base. -/
theorem renderGo_mem (b : Nat) (dc : Nat → Char) (hb : 2 ≤ b) :
    ∀ (fuel n : Nat) (c : Char), c ∈ renderGo b dc fuel n → ∃ d, d < b ∧ c = dc d := by
  intro fuel
  induction fuel with
  | zero => intro n c hc; simp [renderGo] at hc
  | succ f ih =>
    intro n c hc
    by_cases hn : n < b
    · simp [renderGo, hn] at hc
      exact ⟨n, hn, hc⟩
    · simp only [renderGo, if_neg hn, List.mem_append, List.mem_cons,
        List.not_mem_nil, or_false] at hc
      rcases hc with hc | hc
      · exact ih (n / b) c hc
      · exact ⟨n % b, Nat.mod_lt _ (by omega), hc⟩

theorem digitChar_not_space (d : Nat) (h : d < 10) :
    isSpaceB (digitChar d) = false ∧ digitChar d ≠ '.' ∧ digitChar d ≠ ':' := by
  interval_cases d <;> exact ⟨rfl, by decide, by decide⟩

theorem hexChar_not_sep (d : Nat) (h : d < 16) :
    isSpaceB (hexChar d) = false ∧ hexChar d ≠ ':' := by
  interval_cases d <;> exact ⟨rfl, by decide⟩

theorem renderNatL_not_space (n : Nat) (c : Char) (hc : c ∈ renderNatL n) :
    isSpaceB c = false := by
  obtain ⟨d, hd, rfl⟩ := renderGo_mem 10 digitChar (by omega) (n + 1) n c hc
  exact (digitChar_not_space d hd).1

theorem renderNatL_no_dot (n : Nat) (c : Char) (hc : c ∈ renderNatL n) : c ≠ '.' := by
  obtain ⟨d, hd, rfl⟩ := renderGo_mem 10 digitChar (by omega) (n + 1) n c hc
  exact (digitChar_not_space d hd).2.1

theorem renderNatL_no_colon (n : Nat) (c : Char) (hc : c ∈ renderNatL n) : c ≠ ':' := by
  obtain ⟨d, hd, rfl⟩ := renderGo_mem 10 digitChar (by omega) (n + 1) n c hc
  exact (digitChar_not_space d hd).2.2

theorem renderHexL_no_colon (n : Nat) (c : Char) (hc : c ∈ renderHexL n) : c ≠ ':' := by
  obtain ⟨d, hd, rfl⟩ := renderGo_mem 16 hexChar (by omega) (n + 1) n c hc
  exact (hexChar_not_sep d hd).2

theorem renderNatL_ne_nil (n : Nat) : renderNatL n ≠ [] :=
  renderGo_ne_nil 10 digitChar (n + 1) n (by omega)

theorem renderHexL_ne_nil (n : Nat) : renderHexL n ≠ [] :=
  renderGo_ne_nil 16 hexChar (n + 1) n (by omega)

/-! ### Lemmas: field splitting -/

theorem fieldsGo_word (w : List Char) (hw : ∀ c ∈ w, isSpaceB c = false) :
    ∀ (cur rest : List Char), fieldsGo cur (w ++ rest) = fieldsGo (w.reverse ++ cur) rest := by
  induction w with
  | nil => intro cur rest; simp
  | cons c w' ih =>
    intro cur rest
    have hc : isSpaceB c = false := hw c (List.mem_cons_self ..)
    have hw' : ∀ x ∈ w', isSpaceB x = false := fun x hx => hw x (List.mem_cons_of_mem _ hx)
    simp only [List.cons_append, fieldsGo, hc, Bool.false_eq_true, if_false]
    rw [show List.append w' rest = w' ++ rest from rfl, ih hw' (c :: cur) rest]
    simp

theorem fieldsL_word_space (w r : List Char) (hne : w ≠ [])
    (hw : ∀ c ∈ w, isSpaceB c = false) :
    fieldsL (w ++ ' ' :: r) = w :: fieldsL r := by
  have hsp : isSpaceB ' ' = true := rfl
  have hwe : w.reverse.isEmpty = false := by
    cases hr : w.reverse with
    | nil => exact absurd (List.reverse_eq_nil_iff.mp hr) hne
    | cons a t => rfl
  simp only [fieldsL, fieldsGo_word w hw [] (' ' :: r), List.append_nil, fieldsGo, hsp,
    if_true, hwe, Bool.false_eq_true, if_false, List.reverse_reverse]

theorem fieldsL_word (w : List Char) (hne : w ≠ []) (hw : ∀ c ∈ w, isSpaceB c = false) :
    fieldsL w = [w] := by
  have hwe : w.reverse.isEmpty = false := by
    cases hr : w.reverse with
    | nil => exact absurd (List.reverse_eq_nil_iff.mp hr) hne
    | cons a t => rfl
  have := fieldsGo_word w hw [] []
  simp only [List.append_nil] at this
  simp only [fieldsL, this, fieldsGo, hwe, Bool.false_eq_true, if_false,
    List.reverse_reverse]

theorem splitFirst_word (sep : Char) (w r : List Char) (hw : ∀ c ∈ w, c ≠ sep) :
    splitFirst sep (w ++ sep :: r) = some (w, r) := by
  induction w with
  | nil => simp [splitFirst]
  | cons c w' ih =>
    have hc : c ≠ sep := hw c (List.mem_cons_self ..)
    have hw' : ∀ x ∈ w', x ≠ sep := fun x hx => hw x (List.mem_cons_of_mem _ hx)
    simp [splitFirst, hc, ih hw']

theorem splitFirst_none (sep : Char) (w : List Char) (hw : ∀ c ∈ w, c ≠ sep) :
    splitFirst sep w = none := by
  induction w with
  | nil => rfl
  | cons c w' ih =>
    have hc : c ≠ sep := hw c (List.mem_cons_self ..)
    have hw' : ∀ x ∈ w', x ≠ sep := fun x hx => hw x (List.mem_cons_of_mem _ hx)
    simp [splitFirst, hc, ih hw']

theorem splitN3_three (a b c : List Char) (ha : ∀ x ∈ a, x ≠ ' ') (hb : ∀ x ∈ b, x ≠ ' ') :
    splitN3 (a ++ ' ' :: (b ++ ' ' :: c)) = [a, b, c] := by
  simp [splitN3, splitFirst_word ' ' a _ ha, splitFirst_word ' ' b c hb]

theorem splitAllGo_word (sep : Char) (w : List Char) (hw : ∀ c ∈ w, c ≠ sep) :
    ∀ (cur rest : List Char),
      splitAllGo sep cur (w ++ rest) = splitAllGo sep (w.reverse ++ cur) rest := by
  induction w with
  | nil => intro cur rest; simp
  | cons c w' ih =>
    intro cur rest
    have hc : c ≠ sep := hw c (List.mem_cons_self ..)
    have hw' : ∀ x ∈ w', x ≠ sep := fun x hx => hw x (List.mem_cons_of_mem _ hx)
    simp only [List.cons_append, splitAllGo, hc, if_false]
    rw [show List.append w' rest = w' ++ rest from rfl, ih hw' (c :: cur) rest]
    simp

theorem splitAll_word_sep (sep : Char) (w r : List Char) (hw : ∀ c ∈ w, c ≠ sep) :
    splitAll sep (w ++ sep :: r) = w :: splitAll sep r := by
  have := splitAllGo_word sep w hw [] (sep :: r)
  simp only [List.append_nil] at this
  simp only [splitAll, this, splitAllGo]
  simp

theorem splitAll_word (sep : Char) (w : List Char) (hw : ∀ c ∈ w, c ≠ sep) :
    splitAll sep w = [w] := by
  have := splitAllGo_word sep w hw [] []
  simp only [List.append_nil] at this
  simp only [splitAll, this, splitAllGo, List.reverse_reverse]

/-! ### Lemmas: IP render/parse round trip -/

theorem hasChar_false (c : Char) (l : List Char) (h : ∀ x ∈ l, x ≠ c) :
    hasChar c l = false := by
  simp only [hasChar, List.any_eq_false]
  intro x hx
  simpa using h x hx

theorem hasChar_true_of_mem (c : Char) (l : List Char) (h : c ∈ l) :
    hasChar c l = true := by
  simp only [hasChar, List.any_eq_true]
  exact ⟨c, h, by simp⟩

theorem parseAddrL_ipRenderL (ip : Ip) (hwf : ip.wf) :
    parseAddrL (ipRenderL ip) = some ip := by
  cases ip with
  | v4 a b c d =>
    obtain ⟨ha, hb, hc, hd⟩ := hwf
    have hnc : hasChar ':' (ipRenderL (.v4 a b c d)) = false := by
      apply hasChar_false
      intro x hx
      simp only [ipRenderL, List.append_assoc, List.cons_append, List.mem_append,
        List.mem_cons] at hx
      rcases hx with hx | hx | hx | hx | hx | hx | hx
      · exact renderNatL_no_colon a x hx
      · subst hx; decide
      · exact renderNatL_no_colon b x hx
      · subst hx; decide
      · exact renderNatL_no_colon c x hx
      · subst hx; decide
      · exact renderNatL_no_colon d x hx
    have hsplit : splitAll '.' (ipRenderL (.v4 a b c d)) =
        [renderNatL a, renderNatL b, renderNatL c, renderNatL d] := by
      simp only [ipRenderL, List.append_assoc, List.cons_append]
      rw [splitAll_word_sep '.' _ _ (renderNatL_no_dot a),
        splitAll_word_sep '.' _ _ (renderNatL_no_dot b),
        splitAll_word_sep '.' _ _ (renderNatL_no_dot c),
        splitAll_word '.' _ (renderNatL_no_dot d)]
    simp [parseAddrL, hnc, hsplit, parseUintB_renderNatL 256 a ha,
      parseUintB_renderNatL 256 b hb, parseUintB_renderNatL 256 c hc,
      parseUintB_renderNatL 256 d hd]
  | v6 a b c d e f g h =>
    obtain ⟨ha, hb, hc, hd, he, hf, hg, hh⟩ := hwf
    have hnc : hasChar ':' (ipRenderL (.v6 a b c d e f g h)) = true := by
      apply hasChar_true_of_mem
      simp [ipRenderL]
    have hsplit : splitAll ':' (ipRenderL (.v6 a b c d e f g h)) =
        [renderHexL a, renderHexL b, renderHexL c, renderHexL d,
         renderHexL e, renderHexL f, renderHexL g, renderHexL h] := by
      simp only [ipRenderL, List.append_assoc, List.cons_append]
      rw [splitAll_word_sep ':' _ _ (renderHexL_no_colon a),
        splitAll_word_sep ':' _ _ (renderHexL_no_colon b),
        splitAll_word_sep ':' _ _ (renderHexL_no_colon c),
        splitAll_word_sep ':' _ _ (renderHexL_no_colon d),
        splitAll_word_sep ':' _ _ (renderHexL_no_colon e),
        splitAll_word_sep ':' _ _ (renderHexL_no_colon f),
        splitAll_word_sep ':' _ _ (renderHexL_no_colon g),
        splitAll_word ':' _ (renderHexL_no_colon h)]
    simp [parseAddrL, hnc, hsplit, parseHexB_renderHexL a ha, parseHexB_renderHexL b hb,
      parseHexB_renderHexL c hc, parseHexB_renderHexL d hd, parseHexB_renderHexL e he,
      parseHexB_renderHexL f hf, parseHexB_renderHexL g hg, parseHexB_renderHexL h hh]

/-! ### Lemmas: the name normalizer -/

theorem revTrim_cons_pos (c : Char) (cs : List Char) (h : (c == '.') = true) :
    revTrim (c :: cs) = revTrim cs := by
  simp [revTrim, List.dropWhile_cons, h]

theorem revTrim_cons_neg (c : Char) (cs : List Char) (h : (c == '.') = false) :
    revTrim (c :: cs) = c :: cs := by
  simp [revTrim, List.dropWhile_cons, h]

theorem revTrim_dot (r : List Char) : revTrim ('.' :: r) = revTrim r :=
  revTrim_cons_pos '.' r (by decide)

theorem revTrim_idem (r : List Char) : revTrim (revTrim r) = revTrim r := by
  induction r with
  | nil => rfl
  | cons c cs ih =>
    cases hc : (c == '.') with
    | true => rw [revTrim_cons_pos c cs hc]; exact ih
    | false => rw [revTrim_cons_neg c cs hc, revTrim_cons_neg c cs hc]

theorem revTrim_head_ne (r : List Char) (a : Char) (t : List Char) :
    revTrim r = a :: t → (a == '.') = false := by
  induction r with
  | nil => intro h; simp [revTrim] at h
  | cons c cs ih =>
    intro h
    cases hc : (c == '.') with
    | true => rw [revTrim_cons_pos c cs hc] at h; exact ih h
    | false =>
      rw [revTrim_cons_neg c cs hc] at h
      injection h with h1 _
      rw [← h1]; exact hc

theorem isPre_nil (l : List Char) : isPre [] l = true := rfl

theorem isPre_append_self (z r : List Char) : isPre z (z ++ r) = true := by
  induction z with
  | nil => rfl
  | cons c cs ih => simp [isPre, ih]

/-- Shape of `fqdnR`: a leading dot (reversed), then a dot-free head. -/
theorem fqdnR_shape (nR zR : List Char) :
    ∃ rest, fqdnR nR zR = '.' :: rest ∧
      (rest = [] ∨ ∃ a t, rest = a :: t ∧ (a == '.') = false) := by
  by_cases hp : isPre (revTrim zR) (revTrim nR) = true
  · refine ⟨revTrim nR, by simp [fqdnR, hp], ?_⟩
    cases hn : revTrim nR with
    | nil => exact Or.inl rfl
    | cons a t => exact Or.inr ⟨a, t, rfl, revTrim_head_ne nR a t hn⟩
  · have hz : revTrim zR ≠ [] := fun h0 => hp (h0 ▸ isPre_nil _)
    obtain ⟨a, t, hat⟩ : ∃ a t, revTrim zR = a :: t := by
      cases hz2 : revTrim zR with
      | nil => exact absurd hz2 hz
      | cons a t => exact ⟨a, t, rfl⟩
    refine ⟨revTrim zR ++ '.' :: revTrim nR, by simp [fqdnR, hp], Or.inr ?_⟩
    exact ⟨a, t ++ '.' :: revTrim nR, by simp [hat], revTrim_head_ne zR a t hat⟩

theorem revTrim_append_trimmed (zR r : List Char) (hz : revTrim zR ≠ []) :
    revTrim (revTrim zR ++ r) = revTrim zR ++ r := by
  obtain ⟨a, t, hat⟩ : ∃ a t, revTrim zR = a :: t := by
    cases hz2 : revTrim zR with
    | nil => exact absurd hz2 hz
    | cons a t => exact ⟨a, t, rfl⟩
  rw [hat, List.cons_append, revTrim_cons_neg a _ (revTrim_head_ne zR a t hat)]

/-- Idempotence of `fqdnR`. -/
theorem fqdnR_idem (nR zR : List Char) : fqdnR (fqdnR nR zR) zR = fqdnR nR zR := by
  by_cases hp : isPre (revTrim zR) (revTrim nR) = true
  · have h1 : fqdnR nR zR = '.' :: revTrim nR := by simp [fqdnR, hp]
    rw [h1]
    have h2 : revTrim ('.' :: revTrim nR) = revTrim nR := by
      rw [revTrim_dot, revTrim_idem]
    simp [fqdnR, h2, hp]
  · have hz : revTrim zR ≠ [] := fun h0 => hp (h0 ▸ isPre_nil _)
    have h1 : fqdnR nR zR = '.' :: (revTrim zR ++ '.' :: revTrim nR) := by
      simp [fqdnR, hp]
    rw [h1]
    have h2 : revTrim ('.' :: (revTrim zR ++ '.' :: revTrim nR)) =
        revTrim zR ++ '.' :: revTrim nR := by
      rw [revTrim_dot, revTrim_append_trimmed zR _ hz]
    have h3 : isPre (revTrim zR) (revTrim zR ++ '.' :: revTrim nR) = true :=
      isPre_append_self ..
    simp [fqdnR, h2, h3]

/-- Round trip of the name through encode (`fqdn`) and decode
(`RelativeName` after the final-dot slice), at the reversed-list level:
the relative name must carry no trailing dot and (unless the trimmed
zone is empty) must not end with the trimmed zone. -/
theorem relativeNameR_fqdnR (nR zR : List Char)
    (hn : revTrim nR = nR)
    (hz : revTrim zR = [] ∨ isPre (revTrim zR) nR = false) :
    relativeNameR ((fqdnR nR zR).tail) zR = nR := by
  rcases hz with hz | hz
  · have hp : isPre (revTrim zR) (revTrim nR) = true := by rw [hz]; exact isPre_nil _
    have h1 : fqdnR nR zR = '.' :: revTrim nR := by simp [fqdnR, hp]
    rw [h1, hn, List.tail_cons]
    have hp2 : isPre (revTrim zR) (revTrim nR) = true := hp
    rw [hn] at hp2
    simp only [relativeNameR, hn, hz, hp2, if_true, List.length_nil, List.drop_zero]
    rw [show nR.dropWhile (fun x => x == '.') = revTrim nR from rfl, hn]
    simp
  · have hp : isPre (revTrim zR) (revTrim nR) = false := by rw [hn]; exact hz
    have hzne : revTrim zR ≠ [] := by
      intro h0
      rw [h0, isPre_nil] at hp
      exact Bool.true_eq_false.mp hp
    have h1 : fqdnR nR zR = '.' :: (revTrim zR ++ '.' :: revTrim nR) := by
      simp [fqdnR, hp]
    rw [h1, hn, List.tail_cons]
    have hf1 : revTrim (revTrim zR ++ '.' :: nR) = revTrim zR ++ '.' :: nR :=
      revTrim_append_trimmed zR _ hzne
    have hp2 : isPre (revTrim zR) (revTrim (revTrim zR ++ '.' :: nR)) = true := by
      rw [hf1]; exact isPre_append_self ..
    simp only [relativeNameR, hp2, if_true, hf1, List.drop_left]
    rw [show ('.' :: nR).dropWhile (fun x => x == '.') = revTrim ('.' :: nR) from rfl]
    rw [revTrim_dot, hn]
    simp [isPre_append_self]

/-! ### String-level bridges -/

theorem reverse_dropLast_reverse (l : List Char) : (l.reverse.dropLast).reverse = l.tail := by
  cases l with
  | nil => rfl
  | cons a t => rw [List.reverse_cons, List.dropLast_concat, List.reverse_reverse, List.tail_cons]

/-- Number of trailing dots of a string. -/
def trailingDots (s : String) : Nat := (s.data.reverse.takeWhile (· == '.')).length

theorem fqdn_data_reverse (n z : String) :
    (fqdn n z).data.reverse = fqdnR n.data.reverse z.data.reverse := by
  simp [fqdn]

theorem fqdn_idem_str (n z : String) : fqdn (fqdn n z) z = fqdn n z := by
  have h : (fqdn n z).data.reverse = fqdnR n.data.reverse z.data.reverse :=
    fqdn_data_reverse n z
  show (⟨(fqdnR (fqdn n z).data.reverse z.data.reverse).reverse⟩ : String) = fqdn n z
  rw [h, fqdnR_idem]
  rfl

theorem trailingDots_fqdn (n z : String) : trailingDots (fqdn n z) = 1 := by
  obtain ⟨rest, heq, hrest⟩ := fqdnR_shape n.data.reverse z.data.reverse
  have h : (fqdn n z).data.reverse = '.' :: rest := by rw [fqdn_data_reverse, heq]
  rw [trailingDots, h]
  rcases hrest with rfl | ⟨a, t, rfl, ha⟩
  · rfl
  · simp [List.takeWhile_cons, ha]

theorem relativeName_fqdn (n z : String)
    (h1 : revTrim n.data.reverse = n.data.reverse)
    (h2 : revTrim z.data.reverse = [] ∨ isPre (revTrim z.data.reverse) n.data.reverse = false) :
    relativeName (dropLastStr (fqdn n z)) z = n := by
  have hb : (dropLastStr (fqdn n z)).data.reverse =
      (fqdnR n.data.reverse z.data.reverse).tail := by
    show ((fqdnR n.data.reverse z.data.reverse).reverse.dropLast).reverse = _
    exact reverse_dropLast_reverse _
  show (⟨(relativeNameR (dropLastStr (fqdn n z)).data.reverse z.data.reverse).reverse⟩ :
      String) = n
  rw [hb, relativeNameR_fqdnR n.data.reverse z.data.reverse h1 h2, List.reverse_reverse]

theorem hasSuffixB_trim (n z : String) :
    hasSuffixB (trimDotsStr n) (trimDotsStr z) =
      isPre (revTrim z.data.reverse) (revTrim n.data.reverse) := by
  simp [hasSuffixB, trimDotsStr]

theorem fqdn_append_form (n z : String) :
    fqdn n z = (if hasSuffixB (trimDotsStr n) (trimDotsStr z) = true
      then (⟨(trimDotsStr n).data ++ ['.']⟩ : String)
      else ⟨(trimDotsStr n).data ++ '.' :: ((trimDotsStr z).data ++ ['.'])⟩) := by
  rw [hasSuffixB_trim]
  by_cases hp : isPre (revTrim z.data.reverse) (revTrim n.data.reverse) = true
  · rw [if_pos hp]
    show (⟨(fqdnR n.data.reverse z.data.reverse).reverse⟩ : String) = _
    apply congrArg String.mk
    simp [fqdnR, hp, trimDotsStr]
  · rw [if_neg hp]
    show (⟨(fqdnR n.data.reverse z.data.reverse).reverse⟩ : String) = _
    apply congrArg String.mk
    simp only [fqdnR, hp, Bool.false_eq_true, if_false, trimDotsStr,
      List.reverse_cons, List.reverse_append, List.append_assoc]
    simp

/-! ### Lemmas: small claim-support facts -/

theorem string_eta (s : String) : (⟨s.data⟩ : String) = s := rfl

theorem string_data_ne_nil (s : String) (h : s ≠ "") : s.data ≠ [] := by
  intro h0
  apply h
  cases s with
  | mk d => cases h0; rfl

theorem fqdn_data_isEmpty (n z : String) : (fqdn n z).data.isEmpty = false := by
  obtain ⟨rest, heq, _⟩ := fqdnR_shape n.data.reverse z.data.reverse
  show ((fqdnR n.data.reverse z.data.reverse).reverse).isEmpty = false
  rw [heq]
  apply isEmpty_false_of_ne_nil
  simp

theorem ttl_roundtrip (t : Int) (h : wfTTL t) : durToSecs t * 1000000000 = t := by
  have hd : (1000000000 : Int) ∣ t := Int.dvd_of_emod_eq_zero h
  exact Int.ediv_mul_cancel hd

theorem renderNatL_ne_space (n : Nat) : ∀ x ∈ renderNatL n, x ≠ ' ' := by
  intro x hx h0
  have := renderNatL_not_space n x hx
  rw [h0] at this
  exact absurd this (by decide)

theorem noSpace_ne_space (s : String) (h : noSpace s) : ∀ x ∈ s.data, x ≠ ' ' := by
  intro x hx h0
  have := h x hx
  rw [h0] at this
  exact absurd this (by decide)

theorem decodeAll_isSome (zone : String) :
    ∀ l : List RfnsRecord, (∀ r ∈ l, convertToLibdnsRecord r zone ≠ none) →
      decodeAll zone l ≠ none := by
  intro l
  induction l with
  | nil => intro _ h0; simp [decodeAll] at h0
  | cons r rs ih =>
    intro h h0
    simp only [decodeAll] at h0
    cases hc : convertToLibdnsRecord r zone with
    | none => exact h r (List.mem_cons_self ..) hc
    | some t =>
      rw [hc] at h0
      cases hd : decodeAll zone rs with
      | none => exact ih (fun x hx => h x (List.mem_cons_of_mem _ hx)) hd
      | some l2 => rw [hd] at h0; simp at h0

theorem string_empty_iff_data (s : String) : s = "" ↔ s.data.isEmpty = true := by
  constructor
  · intro h; rw [h]; rfl
  · intro h
    cases s with
    | mk d =>
      cases d with
      | nil => rfl
      | cons a t => simp [List.isEmpty] at h

/-! ### The claims -/

/-- C9: for every name and zone, `fqdn` strips all trailing dots from
both, appends `"." + zone` exactly when the stripped name does not
already end with the stripped zone, always returns a string ending in
exactly one trailing dot, and is idempotent:
`fqdn (fqdn n z) z = fqdn n z`. -/
theorem C9_normalize_idempotent (n z : String) :
    fqdn (fqdn n z) z = fqdn n z ∧
    trailingDots (fqdn n z) = 1 ∧
    fqdn n z = (if hasSuffixB (trimDotsStr n) (trimDotsStr z) = true
      then (⟨(trimDotsStr n).data ++ ['.']⟩ : String)
      else ⟨(trimDotsStr n).data ++ '.' :: ((trimDotsStr z).data ++ ['.'])⟩) :=
  ⟨fqdn_idem_str n z, trailingDots_fqdn n z, fqdn_append_form n z⟩

/-- C10: decode (`convertToLibdnsRecord`) slices off the last character
of the provider name before anything else, so it reaches a value exactly
when the name is nonempty; an empty name hits the slice panic (modelled
`none`) rather than the `Raw` fallback.  Fetched records carry fully
qualified, trailing-dot (hence nonempty) names, so the public list
operation never hits the panic branch on such zones. -/
theorem C10_decode_name_precondition (c : Client) (rec : RfnsRecord) (zone : String)
    (all : List RfnsRecord) :
    (convertToLibdnsRecord rec zone = none ↔ rec.Name = "") ∧
    (c.getRecordsByDomain zone = .ok all → (∀ r ∈ all, r.Name ≠ "") →
      (getRecords c zone).1 ≠ none) := by
  constructor
  · constructor
    · intro h
      by_cases he : rec.Name.data.isEmpty = true
      · exact (string_empty_iff_data _).mpr he
      · simp only [convertToLibdnsRecord] at h
        rw [if_neg he] at h
        exact absurd h (by simp)
    · intro h
      have he : rec.Name.data.isEmpty = true := (string_empty_iff_data _).mp h
      simp [convertToLibdnsRecord, he]
  · intro hf hnames
    simp only [getRecords, hf]
    have hs : decodeAll zone all ≠ none := by
      apply decodeAll_isSome
      intro r hr
      have hne : r.Name ≠ "" := hnames r hr
      have he : r.Name.data.isEmpty = false := by
        cases hie : r.Name.data.isEmpty with
        | true => exact absurd ((string_empty_iff_data _).mpr hie) hne
        | false => rfl
      simp [convertToLibdnsRecord, he]
    cases hd : decodeAll zone all with
    | none => exact absurd hd hs
    | some l => simp

/-- Witness for C10 at a concrete record and client. -/
theorem C10_witness :
    (convertToLibdnsRecord recA "example.com." = none ↔ recA.Name = "") ∧
    (getRecords clientW "example.com.").1 ≠ none :=
  ⟨(C10_decode_name_precondition clientW recA "example.com." [recA, recB, recDup]).1,
   (C10_decode_name_precondition clientW recA "example.com." [recA, recB, recDup]).2
     rfl (by decide)⟩

/-- C2, counterexample to the claim as stated: a record whose MX data is
malformed but whose name is empty does not decode to the `Raw` fallback —
it hits the name-slice panic (`none`), so "decode never raises an error
for any input" fails at this input. -/
theorem C2_counterexample :
    malformedData recNoName.rtype recNoName.Data = true ∧
    convertToLibdnsRecord recNoName "example.com." = none := by
  constructor <;> rfl

/-- C2, amended: for every provider record with a nonempty name (the
fetched-record invariant), decode reaches a value, and whenever the
type-specific data is malformed (wrong field count, failed numeric
parse, unparsable IP) it returns the `Raw` fallback carrying the
original type and data strings unchanged. -/
theorem C2_malformed_decodes_raw (rec : RfnsRecord) (zone : String)
    (hname : rec.Name ≠ "") :
    (convertToLibdnsRecord rec zone).isSome = true ∧
    (malformedData rec.rtype rec.Data = true →
      convertToLibdnsRecord rec zone =
        some (.rr (relativeName (dropLastStr rec.Name) zone) rec.rtype rec.Data
          (rec.TTL * 1000000000))) := by
  have he : rec.Name.data.isEmpty = false := by
    cases hie : rec.Name.data.isEmpty with
    | true => exact absurd ((string_empty_iff_data _).mpr hie) hname
    | false => rfl
  constructor
  · simp [convertToLibdnsRecord, he]
  · intro hmal
    have hbody : convertBody rec zone =
        .rr (relativeName (dropLastStr rec.Name) zone) rec.rtype rec.Data
          (rec.TTL * 1000000000) := by
      simp only [malformedData] at hmal
      simp only [convertBody]
      by_cases h1 : toUpperStr rec.rtype = "A" ∨ toUpperStr rec.rtype = "AAAA"
      · rw [if_pos h1] at hmal ⊢
        cases hp : parseAddrL rec.Data.data with
        | none => rfl
        | some ip => rw [hp] at hmal; simp at hmal
      · rw [if_neg h1] at hmal ⊢
        by_cases h2 : toUpperStr rec.rtype = "MX"
        · rw [if_pos h2] at hmal ⊢
          cases hfl : fieldsL rec.Data.data with
          | nil => rfl
          | cons p0 rest =>
            cases rest with
            | nil => rfl
            | cons p1 rest2 =>
              cases rest2 with
              | cons p2 rest3 => rfl
              | nil =>
                dsimp only
                cases hp : parseUintB 65536 p0 with
                | none => rfl
                | some pref =>
                  rw [hfl] at hmal
                  dsimp only at hmal
                  rw [hp] at hmal
                  simp at hmal
        · rw [if_neg h2] at hmal ⊢
          by_cases h3 : toUpperStr rec.rtype = "TXT"
          · rw [h3, if_neg (by decide : ¬("TXT" : String) = "SRV"),
              if_neg (by decide : ¬("TXT" : String) = "CAA")] at hmal
            exact absurd hmal (by decide)
          · rw [if_neg h3]
            by_cases h4 : toUpperStr rec.rtype = "CNAME"
            · rw [h4, if_neg (by decide : ¬("CNAME" : String) = "SRV"),
                if_neg (by decide : ¬("CNAME" : String) = "CAA")] at hmal
              exact absurd hmal (by decide)
            · rw [if_neg h4]
              by_cases h5 : toUpperStr rec.rtype = "NS"
              · rw [h5, if_neg (by decide : ¬("NS" : String) = "SRV"),
                  if_neg (by decide : ¬("NS" : String) = "CAA")] at hmal
                exact absurd hmal (by decide)
              · rw [if_neg h5]
                by_cases h6 : toUpperStr rec.rtype = "SRV"
                · rw [if_pos h6] at hmal ⊢
                  cases hfl : fieldsL rec.Data.data with
                  | nil => rfl
                  | cons p0 rest =>
                    cases rest with
                    | nil => rfl
                    | cons p1 rest2 =>
                      cases rest2 with
                      | nil => rfl
                      | cons p2 rest3 =>
                        cases rest3 with
                        | nil => rfl
                        | cons p3 rest4 =>
                          cases rest4 with
                          | cons p4 rest5 => rfl
                          | nil =>
                            dsimp only
                            cases hp0 : parseUintB 65536 p0 with
                            | none => rfl
                            | some a =>
                              cases hp1 : parseUintB 65536 p1 with
                              | none => rfl
                              | some b =>
                                cases hp2 : parseUintB 65536 p2 with
                                | none => rfl
                                | some c =>
                                  rw [hfl] at hmal
                                  dsimp only at hmal
                                  rw [hp0, hp1, hp2] at hmal
                                  simp at hmal
                · rw [if_neg h6] at hmal ⊢
                  by_cases h7 : toUpperStr rec.rtype = "CAA"
                  · rw [if_pos h7] at hmal ⊢
                    cases hfl : splitN3 rec.Data.data with
                    | nil => rfl
                    | cons p0 rest =>
                      cases rest with
                      | nil => rfl
                      | cons p1 rest2 =>
                        cases rest2 with
                        | nil => rfl
                        | cons p2 rest3 =>
                          cases rest3 with
                          | cons p3 rest4 => rfl
                          | nil =>
                            dsimp only
                            cases hp : parseUintB 256 p0 with
                            | none => rfl
                            | some fl =>
                              rw [hfl] at hmal
                              dsimp only at hmal
                              rw [hp] at hmal
                              simp at hmal
                  · rw [if_neg h7]
    simp only [convertToLibdnsRecord, he, Bool.false_eq_true, if_false, hbody]

/-- Witness for the amended C2 at a concrete malformed MX record. -/
theorem C2_witness :
    (convertToLibdnsRecord recBad "example.com.").isSome = true ∧
    convertToLibdnsRecord recBad "example.com." =
      some (.rr (relativeName (dropLastStr recBad.Name) "example.com.") recBad.rtype
        recBad.Data (recBad.TTL * 1000000000)) :=
  ⟨(C2_malformed_decodes_raw recBad "example.com." (by decide)).1,
   (C2_malformed_decodes_raw recBad "example.com." (by decide)).2 (by decide)⟩

/-- C1: for every well-formed typed record of the seven decode-table
variants (well-formed per `wfTyped`: round-trippable relative name,
whole-second TTL, numeric fields in range, whitespace-free nonempty
targets / whitespace-free tag), decoding the provider record produced by
encoding it for a zone yields the record again. -/
theorem C1_decode_encode (x : TypedRecord) (zone : String) (h : wfTyped x zone) :
    convertToLibdnsRecord (convertFromLibdnsRecord x zone) zone = some x := by
  cases x with
  | address n t ip =>
    obtain ⟨hn, ht, hip⟩ := h
    have hres := relativeName_fqdn n zone hn.1 hn.2
    have httl := ttl_roundtrip t ht
    have hpr := parseAddrL_ipRenderL ip hip
    cases ip with
    | v4 a b c d =>
      simp only [convertFromLibdnsRecord, TypedRecord.RR, convertPriority, Ip.is4,
        if_true, convertToLibdnsRecord]
      rw [if_neg (by rw [fqdn_data_isEmpty n zone]; simp)]
      simp only [convertBody]
      rw [if_pos (by decide : toUpperStr "A" = "A" ∨ toUpperStr "A" = "AAAA")]
      rw [hpr, hres, httl]
    | v6 a b c d e f g hh =>
      simp only [convertFromLibdnsRecord, TypedRecord.RR, convertPriority, Ip.is4,
        Bool.false_eq_true, if_false, convertToLibdnsRecord]
      rw [if_neg (by rw [fqdn_data_isEmpty n zone]; simp)]
      simp only [convertBody]
      rw [if_pos (by decide : toUpperStr "AAAA" = "A" ∨ toUpperStr "AAAA" = "AAAA")]
      rw [hpr, hres, httl]
  | mx n t pref tgt =>
    obtain ⟨hn, ht, hpref, htgt, hsp⟩ := h
    have hres := relativeName_fqdn n zone hn.1 hn.2
    have httl := ttl_roundtrip t ht
    simp only [convertFromLibdnsRecord, TypedRecord.RR, convertPriority,
      convertToLibdnsRecord]
    rw [if_neg (by rw [fqdn_data_isEmpty n zone]; simp)]
    simp only [convertBody]
    rw [if_neg (by decide : ¬(toUpperStr "MX" = "A" ∨ toUpperStr "MX" = "AAAA"))]
    rw [if_pos (by decide : toUpperStr "MX" = "MX")]
    have hfl : fieldsL (renderNatL pref ++ ' ' :: tgt.data) = [renderNatL pref, tgt.data] := by
      rw [fieldsL_word_space _ _ (renderNatL_ne_nil pref) (renderNatL_not_space pref),
        fieldsL_word tgt.data (string_data_ne_nil tgt htgt) hsp]
    rw [hfl]
    dsimp only
    rw [parseUintB_renderNatL 65536 pref hpref]
    dsimp only
    rw [hres, httl, string_eta]
  | txt n t text =>
    obtain ⟨hn, ht⟩ := h
    have hres := relativeName_fqdn n zone hn.1 hn.2
    have httl := ttl_roundtrip t ht
    simp only [convertFromLibdnsRecord, TypedRecord.RR, convertPriority,
      convertToLibdnsRecord]
    rw [if_neg (by rw [fqdn_data_isEmpty n zone]; simp)]
    simp only [convertBody]
    rw [if_neg (by decide : ¬(toUpperStr "TXT" = "A" ∨ toUpperStr "TXT" = "AAAA"))]
    rw [if_neg (by decide : ¬toUpperStr "TXT" = "MX")]
    rw [if_pos (by decide : toUpperStr "TXT" = "TXT")]
    rw [hres, httl]
  | cname n t tgt =>
    obtain ⟨hn, ht⟩ := h
    have hres := relativeName_fqdn n zone hn.1 hn.2
    have httl := ttl_roundtrip t ht
    simp only [convertFromLibdnsRecord, TypedRecord.RR, convertPriority,
      convertToLibdnsRecord]
    rw [if_neg (by rw [fqdn_data_isEmpty n zone]; simp)]
    simp only [convertBody]
    rw [if_neg (by decide : ¬(toUpperStr "CNAME" = "A" ∨ toUpperStr "CNAME" = "AAAA"))]
    rw [if_neg (by decide : ¬toUpperStr "CNAME" = "MX")]
    rw [if_neg (by decide : ¬toUpperStr "CNAME" = "TXT")]
    rw [if_pos (by decide : toUpperStr "CNAME" = "CNAME")]
    rw [hres, httl]
  | ns n t tgt =>
    obtain ⟨hn, ht⟩ := h
    have hres := relativeName_fqdn n zone hn.1 hn.2
    have httl := ttl_roundtrip t ht
    simp only [convertFromLibdnsRecord, TypedRecord.RR, convertPriority,
      convertToLibdnsRecord]
    rw [if_neg (by rw [fqdn_data_isEmpty n zone]; simp)]
    simp only [convertBody]
    rw [if_neg (by decide : ¬(toUpperStr "NS" = "A" ∨ toUpperStr "NS" = "AAAA"))]
    rw [if_neg (by decide : ¬toUpperStr "NS" = "MX")]
    rw [if_neg (by decide : ¬toUpperStr "NS" = "TXT")]
    rw [if_neg (by decide : ¬toUpperStr "NS" = "CNAME")]
    rw [if_pos (by decide : toUpperStr "NS" = "NS")]
    rw [hres, httl]
  | srv n t pr w pt tgt =>
    obtain ⟨hn, ht, hpr, hw, hpt, htgt, hsp⟩ := h
    have hres := relativeName_fqdn n zone hn.1 hn.2
    have httl := ttl_roundtrip t ht
    simp only [convertFromLibdnsRecord, TypedRecord.RR, convertPriority,
      convertToLibdnsRecord]
    rw [if_neg (by rw [fqdn_data_isEmpty n zone]; simp)]
    simp only [convertBody]
    rw [if_neg (by decide : ¬(toUpperStr "SRV" = "A" ∨ toUpperStr "SRV" = "AAAA"))]
    rw [if_neg (by decide : ¬toUpperStr "SRV" = "MX")]
    rw [if_neg (by decide : ¬toUpperStr "SRV" = "TXT")]
    rw [if_neg (by decide : ¬toUpperStr "SRV" = "CNAME")]
    rw [if_neg (by decide : ¬toUpperStr "SRV" = "NS")]
    rw [if_pos (by decide : toUpperStr "SRV" = "SRV")]
    have hshape : (renderNatL pr ++ ' ' :: renderNatL w) ++
        ' ' :: renderNatL pt ++ ' ' :: tgt.data =
        renderNatL pr ++ ' ' :: (renderNatL w ++ ' ' ::
          (renderNatL pt ++ ' ' :: tgt.data)) := by
      simp [List.append_assoc, List.cons_append]
    have hfl : fieldsL ((renderNatL pr ++ ' ' :: renderNatL w) ++
        ' ' :: renderNatL pt ++ ' ' :: tgt.data) =
        [renderNatL pr, renderNatL w, renderNatL pt, tgt.data] := by
      rw [hshape,
        fieldsL_word_space _ _ (renderNatL_ne_nil pr) (renderNatL_not_space pr),
        fieldsL_word_space _ _ (renderNatL_ne_nil w) (renderNatL_not_space w),
        fieldsL_word_space _ _ (renderNatL_ne_nil pt) (renderNatL_not_space pt),
        fieldsL_word tgt.data (string_data_ne_nil tgt htgt) hsp]
    rw [hfl]
    dsimp only
    rw [parseUintB_renderNatL 65536 pr hpr, parseUintB_renderNatL 65536 w hw,
      parseUintB_renderNatL 65536 pt hpt]
    dsimp only
    rw [hres, httl, string_eta]
  | caa n t fl tag val =>
    obtain ⟨hn, ht, hfl256, hsp⟩ := h
    have hres := relativeName_fqdn n zone hn.1 hn.2
    have httl := ttl_roundtrip t ht
    simp only [convertFromLibdnsRecord, TypedRecord.RR, convertPriority,
      convertToLibdnsRecord]
    rw [if_neg (by rw [fqdn_data_isEmpty n zone]; simp)]
    simp only [convertBody]
    rw [if_neg (by decide : ¬(toUpperStr "CAA" = "A" ∨ toUpperStr "CAA" = "AAAA"))]
    rw [if_neg (by decide : ¬toUpperStr "CAA" = "MX")]
    rw [if_neg (by decide : ¬toUpperStr "CAA" = "TXT")]
    rw [if_neg (by decide : ¬toUpperStr "CAA" = "CNAME")]
    rw [if_neg (by decide : ¬toUpperStr "CAA" = "NS")]
    rw [if_neg (by decide : ¬toUpperStr "CAA" = "SRV")]
    rw [if_pos (by decide : toUpperStr "CAA" = "CAA")]
    have hshape : (renderNatL fl ++ ' ' :: tag.data) ++ ' ' :: val.data =
        renderNatL fl ++ ' ' :: (tag.data ++ ' ' :: val.data) := by
      simp [List.append_assoc, List.cons_append]
    have hsplit : splitN3 ((renderNatL fl ++ ' ' :: tag.data) ++ ' ' :: val.data) =
        [renderNatL fl, tag.data, val.data] := by
      rw [hshape]
      exact splitN3_three _ _ _ (renderNatL_ne_space fl) (noSpace_ne_space tag hsp)
    rw [hsplit]
    dsimp only
    rw [parseUintB_renderNatL 256 fl hfl256]
    dsimp only
    rw [hres, httl, string_eta, string_eta]
  | svcb n t pr tgt => exact h.elim
  | rr n ty d t => exact h.elim

/-- Witness for C1: a concrete MX record round-trips through
encode/decode for the zone `example.com.`. -/
theorem C1_witness :
    wfTyped tMX "example.com." ∧
    convertToLibdnsRecord (convertFromLibdnsRecord tMX "example.com.") "example.com." =
      some tMX :=
  ⟨by decide, C1_decode_encode tMX "example.com." (by decide)⟩

/-! ### Lemmas: the reconciler and the batch operations -/

theorem find?_middle (p : RfnsRecord → Bool) (cand : RfnsRecord) :
    ∀ (l1 l2 : List RfnsRecord), (∀ x ∈ l1, p x = false) → p cand = true →
      List.find? p (l1 ++ cand :: l2) = some cand := by
  intro l1
  induction l1 with
  | nil => intro l2 _ hc; simp [List.find?_cons, hc]
  | cons a t ih =>
    intro l2 h1 hc
    have ha : p a = false := h1 a (List.mem_cons_self ..)
    simp only [List.cons_append, List.find?_cons, ha]
    exact ih l2 (fun x hx => h1 x (List.mem_cons_of_mem _ hx)) hc

theorem upsertRecord_found (c : Client) (r : TypedRecord) (zone : String)
    (all : List RfnsRecord) (cand : RfnsRecord)
    (hf : c.getRecordsByDomain zone = .ok all)
    (hfind : all.find? (fun rec => upsertMatch zone r.RR rec) = some cand) :
    upsertRecord c r zone =
      (c.updateRecordById cand.ID (upsertEncode r zone),
       [.fetch zone, .update cand.ID (upsertEncode r zone)]) := by
  simp only [upsertRecord, hf, hfind]

theorem upsertRecord_unmatched (c : Client) (r : TypedRecord) (zone : String)
    (all : List RfnsRecord)
    (hf : c.getRecordsByDomain zone = .ok all)
    (hnone : all.find? (fun rec => upsertMatch zone r.RR rec) = none) :
    upsertRecord c r zone =
      (c.createRecord (upsertEncode r zone),
       [.fetch zone, .create (upsertEncode r zone)]) := by
  simp only [upsertRecord, hf, hnone]

theorem deleteLoop_cons_notFound (c : Client) (zone : String) (all : List RfnsRecord)
    (r : TypedRecord) (rs : List TypedRecord)
    (hnone : all.find? (fun rec => deleteMatch zone r.RR rec) = none) :
    deleteLoop c zone all (r :: rs) =
      (.error (.notFound r.RR.Name r.RR.rtype r.RR.Data), []) := by
  simp [deleteLoop, hnone]

theorem deleteLoop_cons_found (c : Client) (zone : String) (all : List RfnsRecord)
    (r : TypedRecord) (rs : List TypedRecord) (cand : RfnsRecord)
    (hfind : all.find? (fun rec => deleteMatch zone r.RR rec) = some cand)
    (hid : cand.ID ≠ 0) :
    deleteLoop c zone all (r :: rs) =
      match c.deleteRecord cand.ID with
      | .error e => (.error (.wrapDelete cand.ID e), [.delete cand.ID])
      | .ok _ =>
        ((deleteLoop c zone all rs).1.map fun l => r :: l,
         .delete cand.ID :: (deleteLoop c zone all rs).2) := by
  simp [deleteLoop, hfind, hid]

/-- C3: `upsertRecord` fetches the zone first, encodes the desired
record, scans the fetched list with the loose name+type policy, and
either updates the matched candidate by its id or creates — returning
the provider's response either way.  The call trace makes the order
(fetch, then exactly one update or create) explicit. -/
theorem C3_upsert_flow (c : Client) (r : TypedRecord) (zone : String)
    (all : List RfnsRecord)
    (hf : c.getRecordsByDomain zone = .ok all) :
    (∀ cand, all.find? (fun rec => upsertMatch zone r.RR rec) = some cand →
      upsertRecord c r zone =
        (c.updateRecordById cand.ID (upsertEncode r zone),
         [.fetch zone, .update cand.ID (upsertEncode r zone)])) ∧
    (all.find? (fun rec => upsertMatch zone r.RR rec) = none →
      upsertRecord c r zone =
        (c.createRecord (upsertEncode r zone),
         [.fetch zone, .create (upsertEncode r zone)])) :=
  ⟨fun cand hfind => upsertRecord_found c r zone all cand hf hfind,
   fun hnone => upsertRecord_unmatched c r zone all hf hnone⟩

/-- Witness for C3: against the fixture zone, upserting the A record
updates the first matching candidate by its id. -/
theorem C3_witness :
    upsertRecord clientW tA "example.com." =
      (clientW.updateRecordById recA.ID (upsertEncode tA "example.com."),
       [.fetch "example.com.", .update recA.ID (upsertEncode tA "example.com.")]) :=
  (C3_upsert_flow clientW tA "example.com." [recA, recB, recDup] rfl).1 recA (by decide)

/-- C4: the two encoders disagree with the spec on priority.
`convertFromLibdnsRecord` (provider.go) sets priority for MX and SRV but
not for ServiceBinding; the inline encoder of `upsertRecord` (helper
file) leaves priority unset for SRV — its `case libdns.SRV:` has an
empty body, Go switches do not fall through — while setting it for
ServiceBinding and MX.  Other variants never set priority. -/
theorem C4_priority_divergence :
    (upsertEncode tSRV "example.com.").Priority = none ∧
    (convertFromLibdnsRecord tSRV "example.com.").Priority = some 10 ∧
    (upsertEncode tSVCB "example.com.").Priority = some 7 ∧
    (convertFromLibdnsRecord tSVCB "example.com.").Priority = none ∧
    (upsertEncode tMX "example.com.").Priority = some 10 ∧
    (convertFromLibdnsRecord tMX "example.com.").Priority = some 10 ∧
    (upsertEncode tA "example.com.").Priority = none ∧
    (convertFromLibdnsRecord tA "example.com.").Priority = none :=
  ⟨rfl, rfl, rfl, rfl, rfl, rfl, rfl, rfl⟩

/-- C5: deletion matches fetched records with the strict
name+type+data policy; an unmatched input fails with the not-found error
before any delete call, and a matched input (with a persisted, nonzero
id) is deleted by the matched id, the original input record being
collected among the results. -/
theorem C5_delete_strict_match (c : Client) (zone : String) (all : List RfnsRecord)
    (r : TypedRecord) (rest : List TypedRecord)
    (hf : c.getRecordsByDomain zone = .ok all) :
    (all.find? (fun rec => deleteMatch zone r.RR rec) = none →
      deleteRecords c zone (r :: rest) =
        (.error (.notFound r.RR.Name r.RR.rtype r.RR.Data), [.fetch zone])) ∧
    (∀ cand, all.find? (fun rec => deleteMatch zone r.RR rec) = some cand →
      cand.ID ≠ 0 →
      ((∀ e, c.deleteRecord cand.ID = .error e →
          deleteRecords c zone (r :: rest) =
            (.error (.wrapDelete cand.ID e), [.fetch zone, .delete cand.ID])) ∧
       (c.deleteRecord cand.ID = .ok () →
          deleteRecords c zone (r :: rest) =
            ((deleteLoop c zone all rest).1.map (fun l => r :: l),
             .fetch zone :: .delete cand.ID :: (deleteLoop c zone all rest).2)))) := by
  constructor
  · intro hnone
    simp only [deleteRecords, hf, deleteLoop_cons_notFound c zone all r rest hnone]
  · intro cand hfind hid
    constructor
    · intro e herr
      simp only [deleteRecords, hf, deleteLoop_cons_found c zone all r rest cand hfind hid,
        herr]
    · intro hok
      simp only [deleteRecords, hf, deleteLoop_cons_found c zone all r rest cand hfind hid,
        hok]

/-- Witness for C5: deleting the MX record hits exactly the strict match
(`recB`) and returns the original record. -/
theorem C5_witness :
    deleteRecords clientW "example.com." [tMX] =
      (.ok [tMX], [.fetch "example.com.", .delete 4]) := by
  rw [((C5_delete_strict_match clientW "example.com." [recA, recB, recDup] tMX [] rfl).2
    recB (by decide) (by decide)).2 rfl]
  rfl

/-- C7: when several fetched records satisfy the match policy, both the
upsert scan and the delete scan select the first matching candidate in
the order the provider returned — later duplicates (`l2`) are ignored,
and the selection is a successful call, not an error. -/
theorem C7_first_match_tie_break (c : Client) (zone : String) (r : TypedRecord)
    (l1 l2 : List RfnsRecord) (cand : RfnsRecord)
    (hf : c.getRecordsByDomain zone = .ok (l1 ++ cand :: l2)) :
    ((∀ x ∈ l1, upsertMatch zone r.RR x = false) →
      upsertMatch zone r.RR cand = true →
      upsertRecord c r zone =
        (c.updateRecordById cand.ID (upsertEncode r zone),
         [.fetch zone, .update cand.ID (upsertEncode r zone)])) ∧
    ((∀ x ∈ l1, deleteMatch zone r.RR x = false) →
      deleteMatch zone r.RR cand = true → cand.ID ≠ 0 →
      c.deleteRecord cand.ID = .ok () →
      deleteRecords c zone [r] = (.ok [r], [.fetch zone, .delete cand.ID])) := by
  constructor
  · intro h1 hc
    exact upsertRecord_found c r zone (l1 ++ cand :: l2) cand hf
      (find?_middle _ cand l1 l2 h1 hc)
  · intro h1 hc hid hok
    simp only [deleteRecords, hf,
      deleteLoop_cons_found c zone (l1 ++ cand :: l2) r [] cand
        (find?_middle _ cand l1 l2 h1 hc) hid,
      hok]
    rfl

/-- Witness for C7: `recA` and `recDup2` both match the desired A record
under both policies; the scan picks `recA`, the first in provider order,
for both paths. -/
theorem C7_witness :
    upsertRecord clientDup tA "example.com." =
      (clientDup.updateRecordById recA.ID (upsertEncode tA "example.com."),
       [.fetch "example.com.", .update recA.ID (upsertEncode tA "example.com.")]) ∧
    deleteRecords clientDup "example.com." [tA] =
      (.ok [tA], [.fetch "example.com.", .delete 7]) := by
  constructor
  · exact (C7_first_match_tie_break clientDup "example.com." tA [] [recDup2] recA
      rfl).1 (by decide) (by decide)
  · have h := (C7_first_match_tie_break clientDup "example.com." tA [] [recDup2] recA
      rfl).2 (by decide) (by decide) (by decide) rfl
    simpa using h

/-- C8, counterexample to the claim as stated: the desired record is the
one persisted under provider id 5 (`recOther`), so the spec's rule 1
(`specMatcherRule1`) matches that candidate by id — but the source
matcher (which receives no id at all) rejects it under both policies,
and the upsert path therefore creates instead of updating id 5. -/
theorem C8_counterexample :
    specMatcherRule1 5 recOther = true ∧
    upsertMatch "example.com." (TypedRecord.RR tA) recOther = false ∧
    deleteMatch "example.com." (TypedRecord.RR tA) recOther = false ∧
    upsertRecord clientC8 tA "example.com." =
      (clientC8.createRecord (upsertEncode tA "example.com."),
       [.fetch "example.com.", .create (upsertEncode tA "example.com.")]) := by
  refine ⟨rfl, by decide, by decide, ?_⟩
  exact upsertRecord_unmatched clientC8 tA "example.com." [recOther] rfl (by decide)

/-- C8, amended: the current matcher has no id rule at all — libdns
records no longer carry a provider id (as the source comments note), so
both match policies are independent of the candidate's id: upsert
compares normalized name + type, delete additionally the data string. -/
theorem C8_matcher_has_no_id_rule (zone : String) (rr : RRData) (c : RfnsRecord)
    (i j : Nat) :
    upsertMatch zone rr { c with ID := i } = upsertMatch zone rr { c with ID := j } ∧
    deleteMatch zone rr { c with ID := i } = deleteMatch zone rr { c with ID := j } :=
  ⟨rfl, rfl⟩

theorem appendLoop_failfast (c : Client) (zone : String) (bad : TypedRecord) (e : Err)
    (hbad : c.createRecord (convertFromLibdnsRecord bad zone) = .error e) :
    ∀ (pre post : List TypedRecord),
      (∀ r ∈ pre, ∃ out, c.createRecord (convertFromLibdnsRecord r zone) = .ok out ∧
        convertToLibdnsRecord out zone ≠ none) →
      appendLoop c zone (pre ++ bad :: post) =
        (some (.error (.wrapCreate bad.RR.Name e)),
         pre.map (fun r => .create (convertFromLibdnsRecord r zone)) ++
           [.create (convertFromLibdnsRecord bad zone)]) := by
  intro pre
  induction pre with
  | nil =>
    intro post _
    simp [appendLoop, hbad]
  | cons r pre' ih =>
    intro post h
    obtain ⟨out, hok, hdec⟩ := h r (List.mem_cons_self ..)
    obtain ⟨cr, hcr⟩ : ∃ cr, convertToLibdnsRecord out zone = some cr := by
      cases hc : convertToLibdnsRecord out zone with
      | none => exact absurd hc hdec
      | some cr => exact ⟨cr, rfl⟩
    simp only [List.cons_append, List.append_eq, appendLoop, hok, hcr]
    rw [ih post (fun x hx => h x (List.mem_cons_of_mem _ hx))]
    simp [Except.map]

theorem setLoop_failfast (c : Client) (zone : String) (bad : TypedRecord) (e : Err)
    (hbad : (upsertRecord c bad zone).1 = .error e) :
    ∀ (pre post : List TypedRecord),
      (∀ r ∈ pre, ∃ rec2, (upsertRecord c r zone).1 = .ok rec2 ∧
        convertToLibdnsRecord rec2 zone ≠ none) →
      setLoop c zone (pre ++ bad :: post) =
        (some (.error (.wrapUpdate bad.RR.Name e)),
         (pre.map (fun r => (upsertRecord c r zone).2)).flatten ++
           (upsertRecord c bad zone).2) := by
  intro pre
  induction pre with
  | nil =>
    intro post _
    simp [setLoop, hbad]
  | cons r pre' ih =>
    intro post h
    obtain ⟨rec2, hok, hdec⟩ := h r (List.mem_cons_self ..)
    obtain ⟨ur, hur⟩ : ∃ ur, convertToLibdnsRecord rec2 zone = some ur := by
      cases hc : convertToLibdnsRecord rec2 zone with
      | none => exact absurd hc hdec
      | some ur => exact ⟨ur, rfl⟩
    simp only [List.cons_append, List.append_eq, setLoop, hok, hur]
    rw [ih post (fun x hx => h x (List.mem_cons_of_mem _ hx))]
    simp [Except.map]

theorem deleteLoop_failfast (c : Client) (zone : String) (all : List RfnsRecord)
    (bad : TypedRecord) (cbad : RfnsRecord) (e : Err)
    (hbadf : all.find? (fun rec => deleteMatch zone bad.RR rec) = some cbad)
    (hbadid : cbad.ID ≠ 0)
    (hbade : c.deleteRecord cbad.ID = .error e) :
    ∀ (pre post : List TypedRecord),
      (∀ r ∈ pre, ∃ cand,
        all.find? (fun rec => deleteMatch zone r.RR rec) = some cand ∧
        cand.ID ≠ 0 ∧ c.deleteRecord cand.ID = .ok ()) →
      deleteLoop c zone all (pre ++ bad :: post) =
        (.error (.wrapDelete cbad.ID e),
         pre.map (fun r => .delete
           (((all.find? (fun rec => deleteMatch zone r.RR rec)).map RfnsRecord.ID).getD 0))
           ++ [.delete cbad.ID]) := by
  intro pre
  induction pre with
  | nil =>
    intro post _
    rw [List.nil_append, deleteLoop_cons_found c zone all bad post cbad hbadf hbadid,
      hbade]
    simp
  | cons r pre' ih =>
    intro post h
    obtain ⟨cand, hfind, hid, hok⟩ := h r (List.mem_cons_self ..)
    rw [List.cons_append, deleteLoop_cons_found c zone all r _ cand hfind hid, hok]
    rw [ih post (fun x hx => h x (List.mem_cons_of_mem _ hx))]
    simp [Except.map, hfind]

/-- C6, amended: each batch operation processes its records sequentially
and is fail-fast: with every record before `bad` succeeding and `bad`'s
provider call failing, the operation returns only `bad`'s error — for
append and set wrapped with `bad`'s relative name, for delete's
provider-call failure wrapped with the matched record's id (not the
name) — and no partial result list; the call traces show that the
earlier records' calls were issued (and never rolled back: the traces
contain no compensating calls) and that records after `bad` are never
attempted. -/
theorem C6_batch_failfast (c : Client) (zone : String)
    (preA postA : List TypedRecord) (badA : TypedRecord) (eA : Err)
    (preS postS : List TypedRecord) (badS : TypedRecord) (eS : Err)
    (all : List RfnsRecord) (preD postD : List TypedRecord) (badD : TypedRecord)
    (cbad : RfnsRecord) (eD : Err)
    (hA1 : ∀ r ∈ preA, ∃ out, c.createRecord (convertFromLibdnsRecord r zone) = .ok out ∧
      convertToLibdnsRecord out zone ≠ none)
    (hA2 : c.createRecord (convertFromLibdnsRecord badA zone) = .error eA)
    (hS1 : ∀ r ∈ preS, ∃ rec2, (upsertRecord c r zone).1 = .ok rec2 ∧
      convertToLibdnsRecord rec2 zone ≠ none)
    (hS2 : (upsertRecord c badS zone).1 = .error eS)
    (hf : c.getRecordsByDomain zone = .ok all)
    (hD1 : ∀ r ∈ preD, ∃ cand,
      all.find? (fun rec => deleteMatch zone r.RR rec) = some cand ∧
      cand.ID ≠ 0 ∧ c.deleteRecord cand.ID = .ok ())
    (hD2 : all.find? (fun rec => deleteMatch zone badD.RR rec) = some cbad)
    (hD3 : cbad.ID ≠ 0)
    (hD4 : c.deleteRecord cbad.ID = .error eD) :
    appendRecords c zone (preA ++ badA :: postA) =
      (some (.error (.wrapCreate badA.RR.Name eA)),
       preA.map (fun r => .create (convertFromLibdnsRecord r zone)) ++
         [.create (convertFromLibdnsRecord badA zone)]) ∧
    setRecords c zone (preS ++ badS :: postS) =
      (some (.error (.wrapUpdate badS.RR.Name eS)),
       (preS.map (fun r => (upsertRecord c r zone).2)).flatten ++
         (upsertRecord c badS zone).2) ∧
    deleteRecords c zone (preD ++ badD :: postD) =
      (.error (.wrapDelete cbad.ID eD),
       .fetch zone :: (preD.map (fun r => .delete
         (((all.find? (fun rec => deleteMatch zone r.RR rec)).map RfnsRecord.ID).getD 0))
         ++ [.delete cbad.ID])) := by
  refine ⟨appendLoop_failfast c zone badA eA hA2 preA postA hA1,
    setLoop_failfast c zone badS eS hS2 preS postS hS1, ?_⟩
  simp only [deleteRecords, hf,
    deleteLoop_failfast c zone all badD cbad eD hD2 hD3 hD4 preD postD hD1]

/-- C6, counterexample to the claim as stated: in a delete batch whose
second record's provider delete call fails, the returned error is
wrapped with the matched record's id (7), not with the failing record's
name — `errorWrappedWithName` is false.  (The first record's delete was
issued and kept; the third record was never attempted.) -/
theorem C6_counterexample :
    deleteRecords clientW "example.com." [tMX, tA, tMX] =
      (.error (.wrapDelete 7 (.transport "boom")),
       [.fetch "example.com.", .delete 4, .delete 7]) ∧
    errorWrappedWithName (.wrapDelete 7 (.transport "boom")) (TypedRecord.RR tA).Name
      = false := by
  constructor
  · rfl
  · rfl

/-- Witness for the amended C6: one concrete failing batch per
operation against the `clientF` fixture. -/
theorem C6_witness :
    appendRecords clientF "example.com." [tA, tTXT, tMX] =
      (some (.error (.wrapCreate "note" (.transport "cerr"))),
       [.create (convertFromLibdnsRecord tA "example.com."),
        .create (convertFromLibdnsRecord tTXT "example.com.")]) ∧
    setRecords clientF "example.com." [tA, tMX, tA] =
      (some (.error (.wrapUpdate "mail" (.transport "uerr"))),
       [.fetch "example.com.", .update 7 (upsertEncode tA "example.com."),
        .fetch "example.com.", .update 4 (upsertEncode tMX "example.com.")]) ∧
    deleteRecords clientF "example.com." [tMX, tA, tTXT] =
      (.error (.wrapDelete 7 (.transport "derr")),
       [.fetch "example.com.", .delete 4, .delete 7]) := by
  have h := C6_batch_failfast clientF "example.com."
    [tA] [tMX] tTXT (.transport "cerr")
    [tA] [tA] tMX (.transport "uerr")
    [recA, recB, recDup] [tMX] [tTXT] tA recA (.transport "derr")
    (by
      intro r hr
      rw [List.mem_singleton] at hr
      subst hr
      exact ⟨{ convertFromLibdnsRecord tA "example.com." with ID := 11 }, rfl, by decide⟩)
    rfl
    (by
      intro r hr
      rw [List.mem_singleton] at hr
      subst hr
      exact ⟨{ upsertEncode tA "example.com." with ID := 7 }, rfl, by decide⟩)
    rfl
    rfl
    (by
      intro r hr
      rw [List.mem_singleton] at hr
      subst hr
      exact ⟨recB, by decide, by decide, rfl⟩)
    (by decide)
    (by decide)
    rfl
  simp only [List.singleton_append] at h
  refine ⟨?_, ?_, ?_⟩
  · rw [h.1]; rfl
  · rw [h.2.1]; rfl
  · rw [h.2.2]; rfl

end Regfish
